import Mathlib

/-!
Verification development for the arena-combat prototype.

The definitions below are a shallow embedding of the simulation core:
the tile grid and nav graph (`src/arena/mod.rs`), the A* pathfinder and
Bresenham line of sight (`src/pathfinding.rs`), the turret combat step
(`src/combat.rs`), the rule engine (`src/ai/mod.rs`, `src/ai/rules.rs`)
and the build pipeline (`src/building.rs`, `src/ai/mod.rs`).

Machine integers are embedded as `Nat`/`Int` (`u32` sums stay far below
`2^32` on any realistic map; the single place a `u32` bound is observable,
the `u32::MAX` default of the pathfinder's distance map, is kept as the
literal `cap = 2^32 - 1`).  `f32` world coordinates and times are embedded
as `ℚ`; square roots are eliminated by comparing squares, which agrees
with the source's comparisons of non-negative reals.  Rust `HashMap`s are
embedded as association lists with first-match lookup and cons insertion
(the observable lookup/insert/contains behaviour of a map); iteration
order of a `HashMap` is only ever used where the consumer is
order-insensitive.
-/

/-- A tile coordinate `(x, y)`, embedding the source's `(u32, u32)`. -/
abbrev Coord : Type := Nat × Nat

/-- First-match association-list lookup: the observable `HashMap::get`. -/
def lookupA {β : Type} (k : Coord) : List (Coord × β) → Option β
  | [] => none
  | (k', v) :: rest => if k' = k then some v else lookupA k rest

/-- `HashMap::insert` as cons-shadowing (later lookups see the new value). -/
def insertA {β : Type} (k : Coord) (v : β) (l : List (Coord × β)) : List (Coord × β) :=
  (k, v) :: l

/-- `HashMap::contains_key`. -/
def containsA {β : Type} (k : Coord) (l : List (Coord × β)) : Bool :=
  (lookupA k l).isSome

/-- A 3D world vector with rational components (embedding `Vec3`). -/
structure Vec3Q where
  x : ℚ
  y : ℚ
  z : ℚ
deriving DecidableEq, Repr

/-- Squared distance between two world points (used in place of
`Vec3::length`, comparing squares instead of lengths). -/
def dist2 (a b : Vec3Q) : ℚ :=
  (a.x - b.x) ^ 2 + (a.y - b.y) ^ 2 + (a.z - b.z) ^ 2

/-- `ArenaConfig` from `src/arena/mod.rs`. -/
structure ArenaConfig where
  width : Nat
  height : Nat
  tile_size : ℚ
deriving DecidableEq, Repr

/-- `TurretDirection` from `src/combat.rs`. -/
inductive TurretDirection where
  | north
  | east
  | south
  | west
deriving DecidableEq, Repr

/-- `TurretDirection::to_vec3`: North = -Z, East = +X, South = +Z, West = -X. -/
def TurretDirection.to_vec3 : TurretDirection → Vec3Q
  | .north => ⟨0, 0, -1⟩
  | .east => ⟨1, 0, 0⟩
  | .south => ⟨0, 0, 1⟩
  | .west => ⟨-1, 0, 0⟩

/-- The data of a `Turret` component (`src/combat.rs`): owner entity id,
facing direction, time of last shot. -/
structure TurretData where
  owner : Nat
  direction : TurretDirection
  last_shot : ℚ
deriving DecidableEq, Repr

/-- `Turret::is_active`: the 4-second cooldown has elapsed. -/
def turretIsActive (t : TurretData) (current_time : ℚ) : Bool :=
  decide (4 ≤ current_time - t.last_shot)

/-- `StructureType` from `src/building.rs`. -/
inductive StructureType where
  | obstacleTy
  | wallTy
  | turretTy
deriving DecidableEq, Repr

/-- An occupant entity as stored in `grid.occupants`: a wall, an obstacle,
or a turret (with its `Turret` component data). -/
inductive Occupant where
  | wall
  | obstacle
  | turret (t : TurretData)
deriving DecidableEq, Repr

/-- `ArenaGrid` from `src/arena/mod.rs`: `tiles` is the set of floor-tile
keys (the entity values are never read, only key presence), `occupants`
maps coordinates to the occupant entity. -/
structure ArenaGrid where
  tiles : List Coord
  occupants : List (Coord × Occupant)
deriving DecidableEq, Repr

/-- The `NavGraph.nodes` map: walkable tiles to their neighbour lists. -/
abbrev NavGraph : Type := List (Coord × List Coord)

/-- The four cardinal offsets used by `arena::regenerate_nav_graph`
(`src/arena/mod.rs:335`); this is the regeneration routine the game calls
(the eight-way variant in `src/pathfinding.rs` has no callers). -/
def navDirections : List (Int × Int) := [(0, 1), (0, -1), (1, 0), (-1, 0)]

/-- The neighbour list built for one walkable tile by
`arena::regenerate_nav_graph`: in-bounds cardinal neighbours that are
unoccupied and present in `grid.tiles`. -/
def navNeighbors (config : ArenaConfig) (grid : ArenaGrid) (x y : Nat) : List Coord :=
  navDirections.foldl
    (fun acc (d : Int × Int) =>
      let nx : Int := (x : Int) + d.1
      let ny : Int := (y : Int) + d.2
      if 0 ≤ nx ∧ nx < (config.width : Int) ∧ 0 ≤ ny ∧ ny < (config.height : Int) then
        let nxn := nx.toNat
        let nyn := ny.toNat
        if containsA (nxn, nyn) grid.occupants then acc
        else if grid.tiles.contains (nxn, nyn) then acc ++ [(nxn, nyn)]
        else acc
      else acc)
    []

/-- `arena::regenerate_nav_graph` (`src/arena/mod.rs:333`): clear the map,
then insert every unoccupied tile with its cardinal walkable neighbours. -/
def regenerate_nav_graph (config : ArenaConfig) (grid : ArenaGrid) : NavGraph :=
  grid.tiles.foldr
    (fun p acc =>
      if containsA p grid.occupants then acc
      else (p, navNeighbors config grid p.1 p.2) :: acc)
    []

/-- Membership of a coordinate among the nav graph's node keys. -/
def navHasNode (g : NavGraph) (p : Coord) : Bool :=
  (lookupA p g).isSome

/-- `Inventory` from `src/player.rs`. -/
structure Inventory where
  obstacles : Nat
  turrets : Nat
deriving DecidableEq, Repr

/-- The cardinal direction the source derives from a forward vector
(`src/building.rs:267-282` and the identical logic in `from_quat`):
dominant axis, ties going to the Z branch. -/
def directionFromForward (fx fz : ℚ) : TurretDirection :=
  if |fx| > |fz| then
    if fx > 0 then .east else .west
  else
    if fz > 0 then .south else .north

/-- Result of one build attempt: the updated grid, nav graph and builder
inventory, whether the AI target destinations were marked dirty
(`set_changed`), and the `Turret` component of a spawned turret, if any. -/
structure BuildResult where
  grid : ArenaGrid
  nav : NavGraph
  inventory : Inventory
  dirtyMarked : Bool
  builtTurret : Option TurretData
deriving DecidableEq, Repr

/-- The build branch of `handle_build_input` (`src/building.rs:188-329`,
followed by the `graph_dirty` epilogue at lines 343-349), for a user
right-click on tile `tile`: `playerTiles` are the tiles of all `User`
actors, `playerEntity` the building user, `(fx, fz)` the user's forward
vector, `now` the current time.  The occupied-tile and blocking-player
checks return early; an obstacle build sets `graph_dirty`, a turret build
does not (faithful to the source, where only the obstacle and destroy
branches set it), and only a set flag regenerates the nav graph and marks
AI destinations dirty. -/
def handle_build_input (config : ArenaConfig) (grid : ArenaGrid) (nav : NavGraph)
    (inventory : Inventory) (selected : StructureType) (tile : Coord)
    (playerTiles : List Coord) (playerEntity : Nat) (fx fz : ℚ) (now : ℚ) : BuildResult :=
  if containsA tile grid.occupants then
    ⟨grid, nav, inventory, false, none⟩
  else if playerTiles.contains tile then
    ⟨grid, nav, inventory, false, none⟩
  else
    match selected with
    | .obstacleTy =>
      if inventory.obstacles = 0 then ⟨grid, nav, inventory, false, none⟩
      else
        let grid' : ArenaGrid := ⟨grid.tiles, insertA tile .obstacle grid.occupants⟩
        let inventory' : Inventory := ⟨inventory.obstacles - 1, inventory.turrets⟩
        -- graph_dirty = true: regenerate and mark AI destinations dirty
        ⟨grid', regenerate_nav_graph config grid', inventory', true, none⟩
    | .turretTy =>
      if inventory.turrets = 0 then ⟨grid, nav, inventory, false, none⟩
      else
        let dir := directionFromForward fx fz
        let td : TurretData := ⟨playerEntity, dir, now - 4⟩
        let grid' : ArenaGrid := ⟨grid.tiles, insertA tile (.turret td) grid.occupants⟩
        let inventory' : Inventory := ⟨inventory.obstacles, inventory.turrets - 1⟩
        -- graph_dirty is left false in the turret branch of the source
        ⟨grid', nav, inventory', false, some td⟩
    | .wallTy => ⟨grid, nav, inventory, false, none⟩

/-- The `Action::Build` arm of `rule_evaluation_system`
(`src/ai/mod.rs:159-289`): a scripted actor builds on its own tile.
`nearestEnemy` is `status.nearest_enemy_position`, `selfPos` the actor's
translation, `entity` the actor id.  On success the nav graph is
regenerated, but no target destination is marked dirty, and a turret is
spawned with `last_shot = 0.0`. -/
def aiBuildAction (config : ArenaConfig) (grid : ArenaGrid) (nav : NavGraph)
    (inventory : Inventory) (structureTy : StructureType)
    (direction : Option TurretDirection) (nearestEnemy : Option Vec3Q)
    (selfPos : Vec3Q) (tile : Coord) (entity : Nat) : BuildResult :=
  if containsA tile grid.occupants then
    ⟨grid, nav, inventory, false, none⟩
  else
    match structureTy with
    | .obstacleTy =>
      if inventory.obstacles > 0 then
        let grid' : ArenaGrid := ⟨grid.tiles, insertA tile .obstacle grid.occupants⟩
        let inventory' : Inventory := ⟨inventory.obstacles - 1, inventory.turrets⟩
        ⟨grid', regenerate_nav_graph config grid', inventory', false, none⟩
      else ⟨grid, nav, inventory, false, none⟩
    | .turretTy =>
      if inventory.turrets > 0 then
        let dir :=
          match direction with
          | some d => d
          | none =>
            match nearestEnemy with
            | some e =>
              if |e.x - selfPos.x| > |e.z - selfPos.z| then
                if e.x - selfPos.x > 0 then .east else .west
              else
                if e.z - selfPos.z > 0 then .south else .north
            | none => .south
        let td : TurretData := ⟨entity, dir, 0⟩
        let grid' : ArenaGrid := ⟨grid.tiles, insertA tile (.turret td) grid.occupants⟩
        let inventory' : Inventory := ⟨inventory.obstacles, inventory.turrets - 1⟩
        ⟨grid', regenerate_nav_graph config grid', inventory', false, some td⟩
      else ⟨grid, nav, inventory, false, none⟩
    | .wallTy => ⟨grid, nav, inventory, false, none⟩

/-- Dot product of two world vectors. -/
def dotv (a b : Vec3Q) : ℚ :=
  a.x * b.x + a.y * b.y + a.z * b.z

/-- Vector difference `a - b`. -/
def vsub (a b : Vec3Q) : Vec3Q :=
  ⟨a.x - b.x, a.y - b.y, a.z - b.z⟩

/-- An actor visible to `turret_shooting_system`'s target query: an entity
with a `Transform`, an `Hp`, and possibly the `User` marker. -/
structure ActorUnit where
  id : Nat
  pos : Vec3Q
  hp : Nat
  hpMax : Nat
  isUser : Bool
deriving DecidableEq, Repr

/-- A turret entity as seen by `turret_shooting_system`: its transform
translation and its `Turret` component. -/
structure TurretUnit where
  id : Nat
  pos : Vec3Q
  data : TurretData
deriving DecidableEq, Repr

/-- The events of `src/logging.rs` that the combat step can emit. -/
inductive GameEvent where
  | damageDealt (attacker victim amount : Nat) (time : ℚ)
  | playerEliminated (entity : Nat) (killer : Option Nat) (time : ℚ)
deriving DecidableEq, Repr

/-- The targeting test of `turret_shooting_system` (`src/combat.rs:165-174`)
on one actor: within 15 units and `dot(normalize(to_target), dir) > 0.707`.
With `d` the distance and `r` the un-normalized dot product, the cone test
is `r / d > 0.707`, i.e. `r > 0` and `1000000 * r^2 > 499849 * d^2`
(and it is false at `d = 0`, where the source's `normalize` yields NaN and
every NaN comparison is false). -/
def inFiringCone (tpos : Vec3Q) (dirv : Vec3Q) (apos : Vec3Q) : Bool :=
  let d2 := dist2 apos tpos
  let r := dotv (vsub apos tpos) dirv
  decide (d2 < 225) && decide (0 < r) && decide (499849 * d2 < 1000000 * r ^ 2)

/-- Whether an actor is a valid target for a turret: not the owner, within
range, inside the firing cone. -/
def isTargetCandidate (tu : TurretUnit) (a : ActorUnit) : Bool :=
  decide (a.id ≠ tu.data.owner) && inFiringCone tu.pos tu.data.direction.to_vec3 a.pos

/-- One step of the closest-target scan of `turret_shooting_system`
(`src/combat.rs:152-181`): skip the owner, test range and cone, keep the
strictly closer of the incumbent best and the new candidate (`f32::MAX`
initial best is represented by `none`). -/
def selectStep (tu : TurretUnit) (best : Option (Nat × ℚ)) (a : ActorUnit) :
    Option (Nat × ℚ) :=
  if a.id = tu.data.owner then best
  else if inFiringCone tu.pos tu.data.direction.to_vec3 a.pos then
    let d2 := dist2 a.pos tu.pos
    match best with
    | none => some (a.id, d2)
    | some (bid, bd2) => if d2 < bd2 then some (a.id, d2) else some (bid, bd2)
  else best

/-- The closest-target scan of `turret_shooting_system`
(`src/combat.rs:149-181`), folded over the actors in query order. -/
def selectClosestTarget (tu : TurretUnit) (actors : List ActorUnit) : Option (Nat × ℚ) :=
  actors.foldl (selectStep tu) none

/-- One turret's pass in `turret_shooting_system` (`src/combat.rs:125-237`):
returns the updated turret, the updated actor list, the events emitted, and
whether the game transitioned to `GameOver`.  A dead non-user victim's
despawn is deferred by the source's command buffer, so the victim stays in
the list with 0 HP; `take_damage` is `saturating_sub`, which is `Nat`
subtraction here. -/
def turretStep (tu : TurretUnit) (actors : List ActorUnit) (now : ℚ) :
    TurretUnit × List ActorUnit × List GameEvent × Bool :=
  if ¬ turretIsActive tu.data now then (tu, actors, [], false)
  else
    match selectClosestTarget tu actors with
    | none => (tu, actors, [], false)
    | some (tid, _) =>
      let tu' : TurretUnit := ⟨tu.id, tu.pos, ⟨tu.data.owner, tu.data.direction, now⟩⟩
      match actors.find? (fun a => a.id = tid) with
      | none => (tu', actors, [], false)
      | some victim =>
        let newHp := victim.hp - 1
        let actors' := actors.map (fun a => if a.id = tid then
          ⟨a.id, a.pos, a.hp - 1, a.hpMax, a.isUser⟩ else a)
        let damageEv := GameEvent.damageDealt tu.data.owner tid 1 now
        if newHp > 0 then (tu', actors', [damageEv], false)
        else
          (tu', actors',
            [damageEv, GameEvent.playerEliminated tid (some tu.data.owner) now],
            victim.isUser)

/-- The whole world as the combat system sees it; the grid and nav graph
are part of the state but `turret_shooting_system` has no access to them. -/
structure WorldState where
  config : ArenaConfig
  grid : ArenaGrid
  nav : NavGraph
  turrets : List TurretUnit
  actors : List ActorUnit
  time : ℚ
deriving Repr

/-- One run of `turret_shooting_system` over every turret in query order:
damage is applied immediately (direct `Mut<Hp>` access), while each
turret's own `last_shot` update is only observed after the system, so each
turret is evaluated with its pre-tick `last_shot`. -/
def combatTick (w : WorldState) : List TurretUnit × List ActorUnit × List GameEvent × Bool :=
  w.turrets.foldl
    (fun acc tu =>
      let r := turretStep tu acc.2.1 w.time
      (acc.1 ++ [r.1], r.2.1, acc.2.2.1 ++ r.2.2.1, acc.2.2.2 || r.2.2.2))
    ([], w.actors, [], false)

/-- `Condition` from `src/ai/rules.rs`. -/
inductive Condition where
  | condTrue
  | isEnemyVisible
  | isHealthLow (threshold : Nat)
  | inArea (area_id : String)
  | hasItem (item : String) (count : Nat)
  | isUnderAttack
  | and (cs : List Condition)
  | or (cs : List Condition)
  | not (c : Condition)

/-- `Action` from `src/ai/rules.rs`. -/
inductive RuleAction where
  | moveToArea (area_id : String)
  | chaseEnemy
  | flee
  | build (structureTy : StructureType) (direction : Option TurretDirection)
  | idle
deriving DecidableEq, Repr

/-- `Rule` from `src/ai/rules.rs`. -/
structure Rule where
  name : String
  priority : Int
  condition : Condition
  action : RuleAction

/-- `Hp` from `src/combat.rs`. -/
structure Hp where
  current : Nat
  max : Nat
deriving DecidableEq, Repr

/-- The perception snapshot read by the rule engine.  `visible_players` is
the field of `PlayerStatus` in `src/player.rs`; `current_area_id` and
`nearest_enemy_position` are read by `src/ai/mod.rs` but missing from the
struct in the source tree — they are modelled from the spec's perception
snapshot (§3): current area id from area lookup, nearest visible enemy
position. -/
structure PlayerStatus where
  visible_players : List Nat
  current_area_id : Option String
  nearest_enemy_position : Option Vec3Q
deriving DecidableEq, Repr

/-- `evaluate_condition` from `src/ai/mod.rs:48-73`. -/
def evaluate_condition (status : PlayerStatus) (hp : Hp) (inventory : Inventory) :
    Condition → Bool
  | .condTrue => true
  | .isEnemyVisible => !status.visible_players.isEmpty
  | .isHealthLow threshold => decide (hp.current ≤ threshold)
  | .inArea area_id => decide (status.current_area_id = some area_id)
  | .hasItem item count =>
    if item = "obstacle" then decide (count ≤ inventory.obstacles)
    else if item = "turret" then decide (count ≤ inventory.turrets)
    else false
  | .isUnderAttack => false
  | .and cs => cs.attach.all (fun c => evaluate_condition status hp inventory c.1)
  | .or cs => cs.attach.any (fun c => evaluate_condition status hp inventory c.1)
  | .not c => !evaluate_condition status hp inventory c
decreasing_by
  all_goals simp_wf
  all_goals try have hlt := List.sizeOf_lt_of_mem c.2
  all_goals omega

/-- Stable descending insertion: place `x` before the first element whose
priority is not larger.  Folded from the right this computes the unique
list that is sorted by non-increasing priority with equal priorities in
original order — the observable result of the source's stable
`sort_by(|a, b| b.priority.cmp(&a.priority))` (`src/ai/mod.rs:98-99`). -/
def insertRuleDesc (x : Rule) : List Rule → List Rule
  | [] => [x]
  | y :: ys => if y.priority ≤ x.priority then x :: y :: ys else y :: insertRuleDesc x ys

/-- The sorted rule list of `rule_evaluation_system`. -/
def sortRules : List Rule → List Rule
  | [] => []
  | x :: xs => insertRuleDesc x (sortRules xs)

/-- The rule executed by `rule_evaluation_system` for one actor and one
tick: the first rule of the stably-sorted list whose condition holds (the
source `break`s after executing it), or `none` when no condition holds. -/
def selectRule (status : PlayerStatus) (hp : Hp) (inventory : Inventory)
    (rules : List Rule) : Option Rule :=
  (sortRules rules).find? (fun r => evaluate_condition status hp inventory r.condition)

/-- Modelled from the spec: "the first rule whose condition holds when the
rules are ordered by priority descending with equal priorities ordered by
declaration index".  Recursing from the head (lowest declaration index
first), a matching head rule beats every later match of equal or lower
priority and loses only to a strictly higher-priority later match — which
is exactly the first matching rule in that order. -/
def specFirstMatch (status : PlayerStatus) (hp : Hp) (inventory : Inventory) :
    List Rule → Option Rule
  | [] => none
  | r :: rest =>
    match specFirstMatch status hp inventory rest with
    | none => if evaluate_condition status hp inventory r.condition then some r else none
    | some s =>
      if evaluate_condition status hp inventory r.condition then
        if r.priority < s.priority then some s else some r
      else some s

/-- The Bresenham loop of `get_line` (`src/pathfinding.rs:186-200`), with
an explicit step budget (the loop reaches `(x1, y1)` in at most
`|Δx| + |Δy|` steps, so the budget chosen in `get_line` never runs out). -/
def bresenhamLoop (x1 y1 sx sy dx dy : Int) : Nat → Int → Int → Int → List (Int × Int)
  | 0, _, _, _ => []
  | fuel + 1, x, y, err =>
    (x, y) ::
      (if x = x1 ∧ y = y1 then []
       else
        let e2 := 2 * err
        let s1 : Int × Int := if dy ≤ e2 then (err + dy, x + sx) else (err, x)
        let s2 : Int × Int := if e2 ≤ dx then (s1.1 + dx, y + sy) else (s1.1, y)
        bresenhamLoop x1 y1 sx sy dx dy fuel s1.2 s2.2 s2.1)

/-- `get_line` from `src/pathfinding.rs:176-202`. -/
def get_line (x0 y0 x1 y1 : Int) : List (Int × Int) :=
  let dx := |x1 - x0|
  let dy := -|y1 - y0|
  let sx : Int := if x0 < x1 then 1 else -1
  let sy : Int := if y0 < y1 then 1 else -1
  bresenhamLoop x1 y1 sx sy dx dy ((x1 - x0).natAbs + (y1 - y0).natAbs + 1) x0 y0 (dx + dy)

/-- World coordinate to tile index: `((c - tile_size * 0.5) / tile_size).floor()`. -/
def worldToTile (config : ArenaConfig) (c : ℚ) : Int :=
  Int.floor ((c - config.tile_size * (1 / 2)) / config.tile_size)

/-- A rasterized tile blocks sight when it is out of bounds or occupied
(`src/pathfinding.rs:223-231`). -/
def tileBlocked (config : ArenaConfig) (grid : ArenaGrid) (t : Int × Int) : Bool :=
  if t.1 < 0 ∨ (config.width : Int) ≤ t.1 ∨ t.2 < 0 ∨ (config.height : Int) ≤ t.2 then true
  else containsA (t.1.toNat, t.2.toNat) grid.occupants

/-- `has_line_of_sight` from `src/pathfinding.rs:204-235`: rasterize the
segment between the two world points' tiles; every tile other than the
start tile must be in bounds and unoccupied. -/
def has_line_of_sight (pStart pEnd : Vec3Q) (config : ArenaConfig) (grid : ArenaGrid) : Bool :=
  let x1 := worldToTile config pStart.x
  let z1 := worldToTile config pStart.z
  let x2 := worldToTile config pEnd.x
  let z2 := worldToTile config pEnd.z
  (get_line x1 z1 x2 z2).all
    (fun t => (decide (t.1 = x1) && decide (t.2 = z1)) || !tileBlocked config grid t)

/-- The priority-queue entry `State` of `src/pathfinding.rs:12-16`. -/
structure StateP where
  cost : Nat
  position : Coord
deriving DecidableEq, Repr

/-- The strict order of the source's `Ord for State`
(`src/pathfinding.rs:18-26`): `a < b` iff `b` has smaller cost, or equal
cost and larger x, then larger y — so the `BinaryHeap` pops the
smallest-cost entry, ties broken towards the larger coordinate.  The order
is total and two entries comparing equal are identical, so a heap pop is
exactly the maximum of this order. -/
def stateLt (a b : StateP) : Bool :=
  decide (b.cost < a.cost) ||
    (decide (a.cost = b.cost) &&
      (decide (a.position.1 < b.position.1) ||
        (decide (a.position.1 = b.position.1) && decide (a.position.2 < b.position.2))))

/-- `BinaryHeap::pop` on the multiset of entries: remove one maximal
element (any two equal-maximal entries are identical `StateP` values). -/
def popMax : List StateP → Option (StateP × List StateP)
  | [] => none
  | x :: xs =>
    match popMax xs with
    | none => some (x, [])
    | some (m, rest) => if stateLt x m then some (m, x :: rest) else some (x, xs)

/-- `u32::MAX`, the `unwrap_or` default of the pathfinder's distance map. -/
def cap : Nat := 4294967295

/-- `dist.get(p).unwrap_or(u32::MAX)`. -/
def distOf (dist : List (Coord × Nat)) (k : Coord) : Nat :=
  (lookupA k dist).getD cap

/-- Upward scan for the floor square root: the largest `j ≤ k + fuel`
with `j^2 ≤ n`, starting from a `k` with `k^2 ≤ n`. -/
def isqrtLoop (n : Nat) : Nat → Nat → Nat
  | 0, k => k
  | fuel + 1, k => if (k + 1) * (k + 1) ≤ n then isqrtLoop n fuel (k + 1) else k

/-- Floor integer square root, structurally recursive (kernel-computable
replacement for `Nat.sqrt`; `isqrt_eq_sqrt` below proves them equal). -/
def isqrt (n : Nat) : Nat :=
  isqrtLoop n n 0

/-- The heuristic of `find_path` (`src/pathfinding.rs:149-152`):
`(sqrt(dx^2 + dy^2) * 10) as u32` = `⌊10·√s⌋` = `⌊√(100·s)⌋`
(exact for the coordinate ranges of interest; `f32` rounding can differ
only when `10·√s` is within a float ulp of an integer, which does not
occur for small grids). -/
def heuristic (p goal : Coord) : Nat :=
  isqrt (100 * (((p.1 : Int) - goal.1).natAbs ^ 2 + ((p.2 : Int) - goal.2).natAbs ^ 2))

/-- The step cost of `find_path` (`src/pathfinding.rs:139-141`):
14 when `|dx| + |dy| = 2`, else 10. -/
def stepCost (p n : Coord) : Nat :=
  if ((n.1 : Int) - p.1).natAbs + ((n.2 : Int) - p.2).natAbs = 2 then 14 else 10

/-- One neighbour relaxation of the A* loop (`src/pathfinding.rs:135-159`):
re-read the popped node's current cost, and on strict improvement update
the distance map, push the neighbour with `g + h`, and record the
predecessor. -/
def relaxStep (goal pos : Coord) (st : List (Coord × Nat) × List StateP × List (Coord × Coord))
    (n : Coord) : List (Coord × Nat) × List StateP × List (Coord × Coord) :=
  let g := distOf st.1 pos
  let newCost := g + stepCost pos n
  if newCost < distOf st.1 n then
    (insertA n newCost st.1, ⟨newCost + heuristic n goal, n⟩ :: st.2.1, insertA n pos st.2.2)
  else st

/-- Relaxation of a popped node's whole neighbour list, in list order. -/
def relaxList (goal pos : Coord) (nbrs : List Coord)
    (st : List (Coord × Nat) × List StateP × List (Coord × Coord)) :
    List (Coord × Nat) × List StateP × List (Coord × Coord) :=
  nbrs.foldl (relaxStep goal pos) st

/-- The path-reconstruction loop of `find_path` (`src/pathfinding.rs:119-131`):
follow `came_from` from the goal back to the start, accumulating the nodes;
the source's final `reverse` is realized by consing.  The step budget is an
embedding artifact: predecessor links strictly decrease the recorded cost,
so `distOf dist goal + 2` steps always suffice (the source's `while` loop
has no bound). -/
def reconstructPath (start : Coord) (cf : List (Coord × Coord)) :
    Nat → Coord → List Coord → Option (List Coord)
  | 0, _, _ => none
  | fuel + 1, current, acc =>
    if current = start then some (start :: acc)
    else
      match lookupA current cf with
      | none => none
      | some prev => reconstructPath start cf fuel prev (current :: acc)

/-- The main loop of `find_path` (`src/pathfinding.rs:114-164`): pop the
best frontier entry; if it is the goal, reconstruct; otherwise relax its
neighbours (a popped node absent from the graph relaxes nothing).  The
step budget is an embedding artifact standing for the source's unbounded
`while`: every iteration strictly decreases `|heap| + Σ current distances`,
so the budget chosen in `find_path` never runs out. -/
def astarLoop (graph : NavGraph) (start goal : Coord) :
    Nat → List (Coord × Nat) → List StateP → List (Coord × Coord) → Option (List Coord)
  | 0, _, _, _ => none
  | fuel + 1, dist, heap, cf =>
    match popMax heap with
    | none => none
    | some (s, rest) =>
      if s.position = goal then
        reconstructPath start cf (distOf dist goal + 2) goal []
      else
        match lookupA s.position graph with
        | none => astarLoop graph start goal fuel dist rest cf
        | some nbrs =>
          let st := relaxList goal s.position nbrs (dist, rest, cf)
          astarLoop graph start goal fuel st.1 st.2.1 st.2.2

/-- Every position the algorithm can ever hold a distance for: the start,
the graph's keys, and every listed neighbour. -/
def navUniverse (graph : NavGraph) (start : Coord) : List Coord :=
  (start :: (graph.map Prod.fst ++ graph.flatMap Prod.snd)).dedup

/-- A provably sufficient step budget for `astarLoop`. -/
def findPathFuel (graph : NavGraph) (start : Coord) : Nat :=
  (navUniverse graph start).length * cap + 2

/-- `find_path` from `src/pathfinding.rs:101-174`. -/
def find_path (start goal : Coord) (graph : NavGraph) : Option (List Coord) :=
  astarLoop graph start goal (findPathFuel graph start) [(start, 0)] [⟨0, start⟩] []

/-- One directed edge of the nav graph: `q` appears in `p`'s neighbour list. -/
def graphEdge (graph : NavGraph) (p q : Coord) : Prop :=
  ∃ l, lookupA p graph = some l ∧ q ∈ l

/-- Reachability along nav-graph edges. -/
def GraphReach (graph : NavGraph) : Coord → Coord → Prop :=
  Relation.ReflTransGen (graphEdge graph)

/-- Executable neighbour-closure check: every listed neighbour of every
entry is itself a node (spec §8, invariant 2; true of every graph built by
`regenerate_nav_graph`). -/
def wellFormedGraph (graph : NavGraph) : Bool :=
  graph.all (fun e => e.2.all (fun n => navHasNode graph n))

/-- The `Action::Flee` target computation (`src/ai/mod.rs:128-158`): the
displacement away from the enemy added to the own tile, each component
clamped with `i32::clamp(0, width)` / `i32::clamp(0, height)` exactly as
in the source. -/
def fleeTarget (config : ArenaConfig) (selfTile enemyTile : Coord) : Coord :=
  let dx : Int := (selfTile.1 : Int) - (enemyTile.1 : Int)
  let dy : Int := (selfTile.2 : Int) - (enemyTile.2 : Int)
  let fleeX : Int := max 0 (min ((selfTile.1 : Int) + dx) (config.width : Int))
  let fleeY : Int := max 0 (min ((selfTile.2 : Int) + dy) (config.height : Int))
  (fleeX.toNat, fleeY.toNat)

/-- Sum of current distances over a fixed position universe; together
with the heap size this is the loop's termination measure. -/
def sumDist (u : List Coord) (dist : List (Coord × Nat)) : Nat :=
  (u.map (distOf dist)).sum

/-- The strictly decreasing measure of one `astarLoop` iteration. -/
def loopMeasure (u : List Coord) (dist : List (Coord × Nat)) (heap : List StateP) : Nat :=
  heap.length + sumDist u dist

/-- Stability: every graph edge is either relaxed (`distOf` satisfies the
triangle inequality through it) or its source still has a heap entry. -/
def StabInv (graph : NavGraph) (dist : List (Coord × Nat)) (heap : List StateP) : Prop :=
  ∀ m l, lookupA m graph = some l → ∀ n ∈ l,
    (∃ s ∈ heap, s.position = m) ∨ distOf dist n ≤ distOf dist m + stepCost m n

/-- The data-structure invariants of the A* loop state. -/
structure AStarCore (graph : NavGraph) (start goal : Coord)
    (dist : List (Coord × Nat)) (heap : List StateP)
    (cf : List (Coord × Coord)) : Prop where
  heap_dist : ∀ s ∈ heap, ∃ d, lookupA s.position dist = some d
  val_lt : ∀ k d, lookupA k dist = some d → d < cap
  start0 : lookupA start dist = some 0
  cf_chain : ∀ k v, lookupA k cf = some v →
    ∃ dk dv, lookupA k dist = some dk ∧ lookupA v dist = some dv ∧ dv < dk
  dist_cf : ∀ k d, lookupA k dist = some d → k ≠ start → ∃ v, lookupA k cf = some v
  goal_heap : ∀ d, lookupA goal dist = some d → ∃ s, s ∈ heap ∧ s.position = goal
  reach_heap : ∀ s ∈ heap, GraphReach graph start s.position

/-! Concrete scenarios used by individual claims. -/

/-- A 2×2 arena with no occupants. -/
def demoConfig : ArenaConfig := ⟨2, 2, 4⟩

/-- The four tiles of the 2×2 arena. -/
def demoTiles : List Coord := [(0, 0), (1, 0), (0, 1), (1, 1)]

/-- The empty 2×2 grid. -/
def demoGrid : ArenaGrid := ⟨demoTiles, []⟩

/-- Nav graph of the empty 2×2 grid. -/
def demoNav : NavGraph := regenerate_nav_graph demoConfig demoGrid

/-- A user (entity 3, standing on tile (1,1), facing +X, one turret in
inventory) builds a turret on the free tile (0,0) at time 10. -/
def demoTurretBuild : BuildResult :=
  handle_build_input demoConfig demoGrid demoNav ⟨0, 1⟩ .turretTy (0, 0) [(1, 1)] 3 1 0 10

/-- A scripted actor (entity 7, one turret in inventory, no enemy in
sight) builds a turret on the free tile (0,0). -/
def demoAiTurretBuild : BuildResult :=
  aiBuildAction demoConfig demoGrid demoNav ⟨0, 1⟩ .turretTy none none ⟨0, 0, 0⟩ (0, 0) 7

/-- The 5×5 arena of the spec's end-to-end pathfinding scenarios. -/
def c5Config : ArenaConfig := ⟨5, 5, 4⟩

/-- All 25 tiles of the 5×5 arena. -/
def c5Tiles : List Coord :=
  (List.range 5).flatMap (fun y => (List.range 5).map (fun x => (x, y)))

/-- The 5×5 grid with occupants at (2,0), (2,1), (2,2), (2,3). -/
def c5Grid : ArenaGrid :=
  ⟨c5Tiles, [((2, 0), .obstacle), ((2, 1), .obstacle), ((2, 2), .obstacle), ((2, 3), .obstacle)]⟩

/-- Nav graph regenerated from the blocked 5×5 grid. -/
def c5Nav : NavGraph := regenerate_nav_graph c5Config c5Grid

/-- The world position of the centre of tile (x, y) at tile size 4:
`(x + 0.5, 0, y + 0.5) * 4`. -/
def worldCenter (x y : Nat) : Vec3Q := ⟨4 * x + 2, 0, 4 * y + 2⟩

/-- A 3×2 arena used for the line-of-sight symmetry analysis. -/
def c6Config : ArenaConfig := ⟨3, 2, 4⟩

/-- The 3×2 grid with a single obstacle at (1,0). -/
def c6Grid : ArenaGrid :=
  ⟨(List.range 2).flatMap (fun y => (List.range 3).map (fun x => (x, y))),
   [((1, 0), .obstacle)]⟩

/-- A turret at the centre of tile (0,0), owned by entity 3, facing east,
ready to fire at time 10. -/
def demoTurretUnit : TurretUnit := ⟨5, worldCenter 0 0, ⟨3, .east, 0⟩⟩

/-- Three actors: the owner, one enemy straight east within range, one
enemy further east. -/
def demoActors : List ActorUnit :=
  [⟨3, worldCenter 0 1, 10, 10, true⟩,
   ⟨4, ⟨8, 0, 2⟩, 5, 5, false⟩,
   ⟨6, ⟨13, 0, 2⟩, 5, 5, false⟩]

/-- A world containing the demo turret and actors, empty grid. -/
def demoWorldA : WorldState :=
  ⟨demoConfig, demoGrid, demoNav, [demoTurretUnit], demoActors, 10⟩

/-- The same turrets/actors/time, but a grid whose occupants put a wall
directly between the turret and every actor. -/
def demoWorldB : WorldState :=
  ⟨demoConfig, ⟨demoTiles, [((1, 0), .wall), ((0, 1), .wall), ((1, 1), .wall)]⟩,
   [], [demoTurretUnit], demoActors, 10⟩

/-! Helper lemmas. -/

/-- The upward-scan loop produces a floor square root, given a sound lower
start and an upper bound within the budget. -/
theorem isqrtLoop_spec (n : Nat) :
    ∀ fuel k, k * k ≤ n → n < (k + fuel + 1) * (k + fuel + 1) →
      isqrtLoop n fuel k * isqrtLoop n fuel k ≤ n ∧
        n < (isqrtLoop n fuel k + 1) * (isqrtLoop n fuel k + 1)
  | 0, k, hk, hub => ⟨hk, by simpa using hub⟩
  | fuel + 1, k, hk, hub => by
    rw [isqrtLoop]
    split
    · refine isqrtLoop_spec n fuel (k + 1) (by assumption) ?_
      have h : k + 1 + fuel + 1 = k + (fuel + 1) + 1 := by omega
      rw [h]
      exact hub
    · exact ⟨hk, Nat.lt_of_not_le (by assumption)⟩

/-- `isqrt` agrees with `Nat.sqrt`. -/
theorem isqrt_eq_sqrt (n : Nat) : isqrt n = Nat.sqrt n := by
  obtain ⟨h1, h2⟩ := isqrtLoop_spec n n 0 (by simp) (by nlinarith)
  have ha : isqrt n ≤ Nat.sqrt n := Nat.le_sqrt.mpr h1
  have hb : Nat.sqrt n < isqrt n + 1 := Nat.sqrt_lt.mpr h2
  omega

/-! Claim theorems. -/

/-- Claim C1 (code_bug evidence): after a successful user turret build the
claimed invariant "(x,y) ∈ nav_graph.nodes ⇔ (x,y) ∈ grid.tiles ∧ (x,y) ∉
grid.occupants" is violated: the turret branch of `handle_build_input`
never sets `graph_dirty`, so tile (0,0) acquires an occupant while
remaining a nav-graph node. -/
theorem nav_node_invariant_violated_by_user_turret_build :
    containsA (0, 0) demoTurretBuild.grid.occupants = true ∧
    demoTurretBuild.grid.tiles.contains (0, 0) = true ∧
    navHasNode demoTurretBuild.nav (0, 0) = true ∧
    ¬ (navHasNode demoTurretBuild.nav (0, 0) = true ↔
        (demoTurretBuild.grid.tiles.contains (0, 0) = true ∧
          containsA (0, 0) demoTurretBuild.grid.occupants = false)) := by
  decide

/-- Claim C4 (code_bug evidence): a successful user turret build debits
the inventory and inserts the occupant, but regenerates no nav graph and
marks no scripted actor's target destination dirty — the turret branch of
`handle_build_input` leaves `graph_dirty` unset, so the epilogue that
regenerates and calls `set_changed` is skipped. -/
theorem user_turret_build_skips_invalidation :
    demoTurretBuild.inventory = ⟨0, 0⟩ ∧
    containsA (0, 0) demoTurretBuild.grid.occupants = true ∧
    demoTurretBuild.dirtyMarked = false ∧
    demoTurretBuild.nav = demoNav ∧
    regenerate_nav_graph demoConfig demoTurretBuild.grid ≠ demoNav := by
  decide

/-- Claim C5 (counterexample): on the 5×5 grid with occupants at
{(2,0),(2,1),(2,2),(2,3)}, `find_path((0,0),(4,0))` does not return a path
of length 9 — the nav graph is 4-connected, so any detour through (2,4)
takes 12 steps. -/
theorem blocked_path_length_cex :
    (find_path (0, 0) (4, 0) c5Nav).map List.length ≠ some 9 := by
  decide

/-- Claim C5 (amended): `find_path((0,0),(4,0))` on the blocked 5×5 grid
returns a path of length 13 that passes through (2,4). -/
theorem blocked_path_run :
    find_path (0, 0) (4, 0) c5Nav =
      some [(0, 0), (1, 0), (1, 1), (1, 2), (1, 3), (1, 4), (2, 4),
            (3, 4), (3, 3), (3, 2), (3, 1), (4, 1), (4, 0)] ∧
    (find_path (0, 0) (4, 0) c5Nav).map List.length = some 13 ∧
    (2, 4) ∈ [(0, 0), (1, 0), (1, 1), (1, 2), (1, 3), (1, 4), (2, 4),
            (3, 4), (3, 3), (3, 2), (3, 1), (4, 1), (4, 0)] := by
  decide

/-- Claim C8 (code_bug evidence): fleeing with self tile (4,0) and the
enemy at (3,0) on a 5×5 arena targets (5,0) — the source clamps with
`clamp(0, width)` instead of `clamp(0, width - 1)`, producing a tile
outside the grid instead of the claimed (4,0). -/
theorem flee_target_out_of_bounds :
    fleeTarget c5Config (4, 0) (3, 0) = (5, 0) ∧
    fleeTarget c5Config (4, 0) (3, 0) ≠ (4, 0) ∧
    ¬ (fleeTarget c5Config (4, 0) (3, 0)).1 < c5Config.width := by
  decide

/-- Claim C9 (counterexample): a turret built by a scripted actor is
created with `last_shot = 0.0`, not `now - cooldown`: at build time 10 the
stored value 0 differs from 10 - 4, and at build time 2 the fresh turret
is not yet eligible to fire. -/
theorem ai_turret_last_shot_zero_cex :
    demoAiTurretBuild.builtTurret = some ⟨7, .south, 0⟩ ∧
    (0 : ℚ) ≠ 10 - 4 ∧
    turretIsActive ⟨7, .south, 0⟩ 2 = false := by
  refine ⟨by decide, by norm_num, ?_⟩
  simp only [turretIsActive]
  norm_num

/-- Claim C9 (amended): a user-built turret is created with
`last_shot = now - 4` and is immediately eligible to fire; an AI-built
turret is created with `last_shot = 0` and is eligible iff `4 ≤ now`. -/
theorem turret_last_shot_by_builder
    (config : ArenaConfig) (grid : ArenaGrid) (nav : NavGraph) (inventory : Inventory)
    (tile : Coord) (playerTiles : List Coord) (playerEntity : Nat) (fx fz now : ℚ)
    (grid' : ArenaGrid) (nav' : NavGraph) (inventory' : Inventory)
    (direction : Option TurretDirection) (nearestEnemy : Option Vec3Q) (selfPos : Vec3Q)
    (tile' : Coord) (entity : Nat) :
    (∀ td, (handle_build_input config grid nav inventory .turretTy tile playerTiles
        playerEntity fx fz now).builtTurret = some td →
      td.last_shot = now - 4 ∧ turretIsActive td now = true)
    ∧ (∀ td, (aiBuildAction config grid' nav' inventory' .turretTy direction nearestEnemy
        selfPos tile' entity).builtTurret = some td →
      td.last_shot = 0 ∧ (turretIsActive td now = true ↔ 4 ≤ now)) := by
  constructor
  · intro td h
    simp only [handle_build_input] at h
    split at h
    · simp at h
    · split at h
      · simp at h
      · split at h
        · simp at h
        · simp only [Option.some.injEq] at h
          subst h
          refine ⟨rfl, ?_⟩
          simp only [turretIsActive]
          have h4 : now - (now - 4) = 4 := by ring
          rw [h4]
          norm_num
  · intro td h
    simp only [aiBuildAction] at h
    split at h
    · simp at h
    · split at h
      · simp only [Option.some.injEq] at h
        subst h
        refine ⟨rfl, ?_⟩
        simp only [turretIsActive]
        rw [sub_zero]
        exact ⟨of_decide_eq_true, fun hle => decide_eq_true hle⟩
      · simp at h

/-- Witness for `turret_last_shot_by_builder` at the demo builds. -/
theorem turret_last_shot_by_builder_witness :
    demoTurretBuild.builtTurret = some ⟨3, .east, 10 - 4⟩ ∧
    ((10 : ℚ) - 4 = 10 - 4 ∧ turretIsActive ⟨3, .east, 10 - 4⟩ 10 = true) ∧
    demoAiTurretBuild.builtTurret = some ⟨7, .south, 0⟩ ∧
    ((0 : ℚ) = 0 ∧ (turretIsActive ⟨7, .south, 0⟩ 10 = true ↔ (4 : ℚ) ≤ 10)) := by
  have h1 : demoTurretBuild.builtTurret = some ⟨3, .east, 10 - 4⟩ := by
    norm_num [demoTurretBuild, handle_build_input, demoGrid, demoConfig, containsA,
      lookupA, directionFromForward]
  refine ⟨h1, ?_, by decide, ?_⟩
  · exact (turret_last_shot_by_builder demoConfig demoGrid demoNav ⟨0, 1⟩ (0, 0) [(1, 1)]
      3 1 0 10 demoGrid demoNav ⟨0, 1⟩ none none ⟨0, 0, 0⟩ (0, 0) 7).1 ⟨3, .east, 10 - 4⟩ h1
  · exact (turret_last_shot_by_builder demoConfig demoGrid demoNav ⟨0, 1⟩ (0, 0) [(1, 1)]
      3 1 0 10 demoGrid demoNav ⟨0, 1⟩ none none ⟨0, 0, 0⟩ (0, 0) 7).2 ⟨7, .south, 0⟩
      (by decide)

/-- Claim C10: the turret combat step reads only the turrets, the actors
and the clock — two worlds that agree on those but have arbitrarily
different grids (occupants included) produce identical combat results, so
occupants between turret and target never block a shot. -/
theorem combat_independent_of_grid (w1 w2 : WorldState)
    (ht : w1.turrets = w2.turrets) (ha : w1.actors = w2.actors)
    (htime : w1.time = w2.time) :
    combatTick w1 = combatTick w2 := by
  simp only [combatTick, ht, ha, htime]

/-- Witness for `combat_independent_of_grid`: the two demo worlds differ
in grid occupants (one walls the turret in completely) yet the combat
tick is identical. -/
theorem combat_independent_of_grid_witness :
    demoWorldA.grid ≠ demoWorldB.grid ∧
    demoWorldA.grid.occupants = [] ∧
    containsA (1, 0) demoWorldB.grid.occupants = true ∧
    combatTick demoWorldA = combatTick demoWorldB := by
  refine ⟨by decide, rfl, by decide, ?_⟩
  exact combat_independent_of_grid demoWorldA demoWorldB rfl rfl rfl

/-- Membership in a descending insertion. -/
theorem insertRuleDesc_mem (x : Rule) (l : List Rule) (z : Rule) :
    z ∈ insertRuleDesc x l ↔ z = x ∨ z ∈ l := by
  induction l with
  | nil => simp [insertRuleDesc]
  | cons y ys ih =>
    simp only [insertRuleDesc]
    split
    · simp [List.mem_cons]
    · simp only [List.mem_cons, ih]
      tauto

/-- Descending insertion preserves sortedness by non-increasing priority. -/
theorem insertRuleDesc_pairwise (x : Rule) (l : List Rule)
    (h : List.Pairwise (fun a b : Rule => b.priority ≤ a.priority) l) :
    List.Pairwise (fun a b : Rule => b.priority ≤ a.priority) (insertRuleDesc x l) := by
  induction l with
  | nil => simp [insertRuleDesc]
  | cons y ys ih =>
    simp only [insertRuleDesc]
    split
    · rename_i hyx
      refine List.Pairwise.cons ?_ h
      intro z hz
      rcases List.mem_cons.mp hz with rfl | hz'
      · exact hyx
      · exact le_trans (List.rel_of_pairwise_cons h hz') hyx
    · rename_i hyx
      refine List.Pairwise.cons ?_ (ih h.of_cons)
      intro z hz
      rcases (insertRuleDesc_mem x ys z).mp hz with rfl | hz'
      · exact le_of_lt (not_le.mp hyx)
      · exact List.rel_of_pairwise_cons h hz'

/-- `find?` over a descending insertion into a sorted list: the inserted
rule is found exactly when no strictly higher-priority rule matches
earlier. -/
theorem find_insertRuleDesc (p : Rule → Bool) (x : Rule) (l : List Rule)
    (hs : List.Pairwise (fun a b : Rule => b.priority ≤ a.priority) l) :
    (insertRuleDesc x l).find? p =
      match l.find? p with
      | none => if p x then some x else none
      | some y =>
        if x.priority < y.priority then some y
        else if p x then some x else some y := by
  induction l with
  | nil =>
    cases hpx : p x <;> simp [insertRuleDesc, List.find?, hpx]
  | cons y ys ih =>
    simp only [insertRuleDesc]
    split
    · rename_i hyx
      cases hf : (y :: ys).find? p with
      | none =>
        cases hpx : p x <;> simp [List.find?_cons, hpx, hf]
      | some z =>
        have hzmem : z ∈ y :: ys := List.mem_of_find?_eq_some hf
        have hzle : z.priority ≤ y.priority := by
          rcases List.mem_cons.mp hzmem with rfl | hz'
          · exact le_refl _
          · exact List.rel_of_pairwise_cons hs hz'
        have hnlt : ¬ x.priority < z.priority := not_lt.mpr (le_trans hzle hyx)
        cases hpx : p x <;> simp [List.find?_cons, hpx, hf, hnlt]
    · rename_i hyx
      have hxy : x.priority < y.priority := not_le.mp hyx
      cases hpy : p y with
      | true =>
        simp [List.find?_cons, hpy, hxy]
      | false =>
        rw [List.find?_cons_of_neg _ (by simp [hpy]),
          List.find?_cons_of_neg _ (by simp [hpy])]
        exact ih hs.of_cons

/-- `sortRules` produces a list sorted by non-increasing priority. -/
theorem sortRules_pairwise (l : List Rule) :
    List.Pairwise (fun a b : Rule => b.priority ≤ a.priority) (sortRules l) := by
  induction l with
  | nil => simp [sortRules]
  | cons x xs ih => exact insertRuleDesc_pairwise x (sortRules xs) ih

/-- `sortRules` neither adds nor removes rules. -/
theorem sortRules_mem (l : List Rule) (z : Rule) : z ∈ sortRules l ↔ z ∈ l := by
  induction l with
  | nil => simp [sortRules]
  | cons x xs ih =>
    rw [sortRules, insertRuleDesc_mem, ih, List.mem_cons]

/-- Claim C3: each tick the rule engine executes exactly the first rule
whose condition holds when the rules are ordered by priority descending
with equal priorities in declaration order (`specFirstMatch` is that
ordering, modelled from the spec), and executes no rule when no condition
holds. -/
theorem rule_selection_first_by_priority (status : PlayerStatus) (hp : Hp)
    (inventory : Inventory) (rules : List Rule) :
    selectRule status hp inventory rules = specFirstMatch status hp inventory rules ∧
    (selectRule status hp inventory rules = none ↔
      ∀ r ∈ rules, evaluate_condition status hp inventory r.condition = false) := by
  constructor
  · induction rules with
    | nil => rfl
    | cons r rest ih =>
      show (insertRuleDesc r (sortRules rest)).find?
          (fun q => evaluate_condition status hp inventory q.condition) = _
      rw [find_insertRuleDesc _ r (sortRules rest) (sortRules_pairwise rest)]
      have hsel : (sortRules rest).find?
          (fun q => evaluate_condition status hp inventory q.condition) =
          specFirstMatch status hp inventory rest := ih
      rw [hsel, specFirstMatch]
      cases hf : specFirstMatch status hp inventory rest with
      | none => rfl
      | some s =>
        cases hpr : evaluate_condition status hp inventory r.condition <;>
          simp only [hpr, Bool.false_eq_true, if_false, if_true]
        · split <;> rfl
  · rw [selectRule, List.find?_eq_none]
    constructor
    · intro h r hr
      have := h r ((sortRules_mem rules r).mpr hr)
      simpa using this
    · intro h r hr
      have := h r ((sortRules_mem rules r).mp hr)
      simp [this]

/-- A non-candidate (owner, out of range, or outside the cone) never
changes the scan accumulator. -/
theorem selectStep_not_candidate (tu : TurretUnit) (a : ActorUnit)
    (best : Option (Nat × ℚ)) (h : isTargetCandidate tu a = false) :
    selectStep tu best a = best := by
  unfold selectStep
  by_cases ho : a.id = tu.data.owner
  · simp [ho]
  · have hc : inFiringCone tu.pos tu.data.direction.to_vec3 a.pos = false := by
      simpa [isTargetCandidate, ho] using h
    simp [ho, hc]

/-- A candidate with an empty accumulator is recorded. -/
theorem selectStep_candidate_none (tu : TurretUnit) (a : ActorUnit)
    (ho : a.id ≠ tu.data.owner)
    (hc : inFiringCone tu.pos tu.data.direction.to_vec3 a.pos = true) :
    selectStep tu none a = some (a.id, dist2 a.pos tu.pos) := by
  simp [selectStep, ho, hc]

/-- A candidate replaces a recorded best exactly on strict improvement. -/
theorem selectStep_candidate_some (tu : TurretUnit) (a : ActorUnit) (j : Nat) (e : ℚ)
    (ho : a.id ≠ tu.data.owner)
    (hc : inFiringCone tu.pos tu.data.direction.to_vec3 a.pos = true) :
    selectStep tu (some (j, e)) a =
      if dist2 a.pos tu.pos < e then some (a.id, dist2 a.pos tu.pos) else some (j, e) := by
  simp [selectStep, ho, hc]

/-- Once some candidate has been recorded, the scan stays recorded. -/
theorem foldl_selectStep_ne_none (tu : TurretUnit) (l : List ActorUnit) :
    ∀ b, l.foldl (selectStep tu) (some b) ≠ none := by
  induction l with
  | nil => intro b h; exact Option.noConfusion h
  | cons a rest ih =>
    intro b
    show rest.foldl (selectStep tu) (selectStep tu (some b) a) ≠ none
    obtain ⟨bid, bd2⟩ := b
    by_cases hcand : isTargetCandidate tu a = true
    · have ho : a.id ≠ tu.data.owner := by
        intro he
        simp [isTargetCandidate, he] at hcand
      have hc : inFiringCone tu.pos tu.data.direction.to_vec3 a.pos = true := by
        simpa [isTargetCandidate, ho] using hcand
      rw [selectStep_candidate_some tu a bid bd2 ho hc]
      split
      · exact ih _
      · exact ih _
    · rw [selectStep_not_candidate tu a (some (bid, bd2)) (eq_false_of_ne_true hcand)]
      exact ih _

/-- The scan returns `none` exactly when no actor is a candidate. -/
theorem selectClosestTarget_none_iff (tu : TurretUnit) (l : List ActorUnit) :
    selectClosestTarget tu l = none ↔ ∀ a ∈ l, isTargetCandidate tu a = false := by
  show l.foldl (selectStep tu) none = none ↔ _
  induction l with
  | nil => simp
  | cons a rest ih =>
    show rest.foldl (selectStep tu) (selectStep tu none a) = none ↔ _
    by_cases hcand : isTargetCandidate tu a = true
    · have ho : a.id ≠ tu.data.owner := by
        intro he
        simp [isTargetCandidate, he] at hcand
      have hc : inFiringCone tu.pos tu.data.direction.to_vec3 a.pos = true := by
        simpa [isTargetCandidate, ho] using hcand
      rw [selectStep_candidate_none tu a ho hc]
      refine iff_of_false (foldl_selectStep_ne_none tu rest _) ?_
      intro h
      rw [h a (by simp)] at hcand
      exact Bool.false_ne_true hcand
    · rw [selectStep_not_candidate tu a none (eq_false_of_ne_true hcand)]
      rw [ih]
      constructor
      · intro h b hb
        rcases List.mem_cons.mp hb with rfl | hb'
        · exact eq_false_of_ne_true hcand
        · exact h b hb'
      · intro h b hb
        exact h b (List.mem_cons_of_mem a hb)

/-- Characterization of the scan: a returned `(id, d²)` is either the
untouched accumulator (already at least as close as every candidate), or a
minimum-distance candidate of the list that strictly improved on the
accumulator. -/
theorem foldl_selectStep_char (tu : TurretUnit) :
    ∀ (l : List ActorUnit) (acc : Option (Nat × ℚ)) (i : Nat) (d : ℚ),
      l.foldl (selectStep tu) acc = some (i, d) →
      (acc = some (i, d) ∧
        ∀ a ∈ l, isTargetCandidate tu a = true → d ≤ dist2 a.pos tu.pos)
      ∨ (∃ v ∈ l, v.id = i ∧ d = dist2 v.pos tu.pos ∧ isTargetCandidate tu v = true ∧
          (∀ a ∈ l, isTargetCandidate tu a = true → d ≤ dist2 a.pos tu.pos) ∧
          (∀ j e, acc = some (j, e) → d < e)) := by
  intro l
  induction l with
  | nil =>
    intro acc i d h
    exact Or.inl ⟨h, by simp⟩
  | cons a rest ih =>
    intro acc i d h
    replace h : rest.foldl (selectStep tu) (selectStep tu acc a) = some (i, d) := h
    by_cases hcand : isTargetCandidate tu a = true
    · have ho : a.id ≠ tu.data.owner := by
        intro he
        simp [isTargetCandidate, he] at hcand
      have hc : inFiringCone tu.pos tu.data.direction.to_vec3 a.pos = true := by
        simpa [isTargetCandidate, ho] using hcand
      cases acc with
      | none =>
        rw [selectStep_candidate_none tu a ho hc] at h
        rcases ih _ i d h with ⟨hacc, hmin⟩ | ⟨v, hvmem, hvid, hvd, hvcand, hvmin, hlast⟩
        · have h2 := Option.some.inj hacc
          have hia : a.id = i := congrArg Prod.fst h2
          have hda : dist2 a.pos tu.pos = d := congrArg Prod.snd h2
          refine Or.inr ⟨a, by simp, hia, hda.symm, hcand, ?_, by simp⟩
          intro b hb hbc
          rcases List.mem_cons.mp hb with rfl | hb'
          · exact le_of_eq hda.symm
          · exact hmin b hb' hbc
        · have hda : d < dist2 a.pos tu.pos := hlast a.id (dist2 a.pos tu.pos) rfl
          refine Or.inr ⟨v, List.mem_cons_of_mem a hvmem, hvid, hvd, hvcand, ?_, by simp⟩
          intro b hb hbc
          rcases List.mem_cons.mp hb with rfl | hb'
          · exact le_of_lt hda
          · exact hvmin b hb' hbc
      | some p =>
        obtain ⟨j, e⟩ := p
        rw [selectStep_candidate_some tu a j e ho hc] at h
        by_cases hlt : dist2 a.pos tu.pos < e
        · rw [if_pos hlt] at h
          rcases ih _ i d h with ⟨hacc, hmin⟩ | ⟨v, hvmem, hvid, hvd, hvcand, hvmin, hlast⟩
          · have h2 := Option.some.inj hacc
            have hia : a.id = i := congrArg Prod.fst h2
            have hda : dist2 a.pos tu.pos = d := congrArg Prod.snd h2
            refine Or.inr ⟨a, by simp, hia, hda.symm, hcand, ?_, ?_⟩
            · intro b hb hbc
              rcases List.mem_cons.mp hb with rfl | hb'
              · exact le_of_eq hda.symm
              · exact hmin b hb' hbc
            · intro j' e' hje
              have h3 := Option.some.inj hje
              have hjj : j = j' := congrArg Prod.fst h3
              have hee : e = e' := congrArg Prod.snd h3
              rw [← hee, ← hda]
              exact hlt
          · have hda : d < dist2 a.pos tu.pos := hlast a.id (dist2 a.pos tu.pos) rfl
            refine Or.inr ⟨v, List.mem_cons_of_mem a hvmem, hvid, hvd, hvcand, ?_, ?_⟩
            · intro b hb hbc
              rcases List.mem_cons.mp hb with rfl | hb'
              · exact le_of_lt hda
              · exact hvmin b hb' hbc
            · intro j' e' hje
              have h3 := Option.some.inj hje
              have hee : e = e' := congrArg Prod.snd h3
              rw [← hee]
              exact lt_trans hda hlt
        · rw [if_neg hlt] at h
          have hea : e ≤ dist2 a.pos tu.pos := le_of_not_lt hlt
          rcases ih _ i d h with ⟨hacc, hmin⟩ | ⟨v, hvmem, hvid, hvd, hvcand, hvmin, hlast⟩
          · have h2 := Option.some.inj hacc
            have hed : e = d := congrArg Prod.snd h2
            refine Or.inl ⟨hacc, ?_⟩
            intro b hb hbc
            rcases List.mem_cons.mp hb with rfl | hb'
            · exact hed ▸ hea
            · exact hmin b hb' hbc
          · have hde : d < e := hlast j e rfl
            refine Or.inr ⟨v, List.mem_cons_of_mem a hvmem, hvid, hvd, hvcand, ?_, ?_⟩
            · intro b hb hbc
              rcases List.mem_cons.mp hb with rfl | hb'
              · exact le_of_lt (lt_of_lt_of_le hde hea)
              · exact hvmin b hb' hbc
            · intro j' e' hje
              have h3 := Option.some.inj hje
              have hee : e = e' := congrArg Prod.snd h3
              rw [← hee]
              exact hde
    · rw [selectStep_not_candidate tu a acc (eq_false_of_ne_true hcand)] at h
      rcases ih _ i d h with ⟨hacc, hmin⟩ | ⟨v, hvmem, hvid, hvd, hvcand, hvmin, hlast⟩
      · refine Or.inl ⟨hacc, ?_⟩
        intro b hb hbc
        rcases List.mem_cons.mp hb with rfl | hb'
        · rw [eq_false_of_ne_true hcand] at hbc
          exact absurd hbc (by simp)
        · exact hmin b hb' hbc
      · refine Or.inr ⟨v, List.mem_cons_of_mem a hvmem, hvid, hvd, hvcand, ?_, hlast⟩
        intro b hb hbc
        rcases List.mem_cons.mp hb with rfl | hb'
        · rw [eq_false_of_ne_true hcand] at hbc
          exact absurd hbc (by simp)
        · exact hvmin b hb' hbc

/-- With pairwise-distinct entity ids, `find?` by id retrieves a member. -/
theorem find_by_id (actors : List ActorUnit) (hnd : (actors.map ActorUnit.id).Nodup)
    (v : ActorUnit) (hv : v ∈ actors) :
    actors.find? (fun a => a.id = v.id) = some v := by
  induction actors with
  | nil => cases hv
  | cons a rest ih =>
    simp only [List.map_cons, List.nodup_cons] at hnd
    rcases List.mem_cons.mp hv with rfl | hv'
    · simp [List.find?_cons]
    · have hne : a.id ≠ v.id := by
        intro he
        exact hnd.1 (he ▸ List.mem_map_of_mem ActorUnit.id hv')
      rw [List.find?_cons_of_neg _ (by simp [hne])]
      exact ih hnd.2 hv'

/-- Claim C2: for a turret whose cooldown has elapsed, if no actor (other
than the owner, within 15 units, inside the 0.707 cone) qualifies, nothing
changes; if some actor qualifies, a minimum-distance qualifier `v` loses
exactly 1 HP (saturating `u32` subtraction), every other actor is
unchanged, a `DamageDealt` event is appended, and the turret's `last_shot`
becomes `now`. -/
theorem turret_firing_step (tu : TurretUnit) (actors : List ActorUnit) (now : ℚ)
    (hnd : (actors.map ActorUnit.id).Nodup)
    (hcool : 4 ≤ now - tu.data.last_shot) :
    ((∀ a ∈ actors, isTargetCandidate tu a = false) →
      turretStep tu actors now = (tu, actors, [], false))
    ∧ ((∃ a ∈ actors, isTargetCandidate tu a = true) →
      ∃ v ∈ actors, isTargetCandidate tu v = true ∧
        (∀ b ∈ actors, isTargetCandidate tu b = true →
          dist2 v.pos tu.pos ≤ dist2 b.pos tu.pos) ∧
        turretStep tu actors now =
          (⟨tu.id, tu.pos, ⟨tu.data.owner, tu.data.direction, now⟩⟩,
           actors.map (fun a => if a.id = v.id then
             ⟨a.id, a.pos, a.hp - 1, a.hpMax, a.isUser⟩ else a),
           GameEvent.damageDealt tu.data.owner v.id 1 now ::
             (if v.hp - 1 > 0 then []
              else [GameEvent.playerEliminated v.id (some tu.data.owner) now]),
           if v.hp - 1 > 0 then false else v.isUser)) := by
  have hact : ¬ ¬ turretIsActive tu.data now = true := by
    simp [turretIsActive, hcool]
  constructor
  · intro hnone
    have hsel : selectClosestTarget tu actors = none :=
      (selectClosestTarget_none_iff tu actors).mpr hnone
    rw [turretStep, if_neg hact, hsel]
  · intro ⟨w, hw, hwc⟩
    have hsel : selectClosestTarget tu actors ≠ none := by
      intro h
      rw [(selectClosestTarget_none_iff tu actors).mp h w hw] at hwc
      exact Bool.false_ne_true hwc
    obtain ⟨⟨i, d⟩, hid⟩ := Option.ne_none_iff_exists'.mp hsel
    rcases foldl_selectStep_char tu actors none i d hid with ⟨hacc, _⟩ |
      ⟨v, hvmem, hvid, hvd, hvcand, hvmin, _⟩
    · exact absurd hacc (by simp)
    · refine ⟨v, hvmem, hvcand, ?_, ?_⟩
      · intro b hb hbc
        rw [hvd] at hvmin
        exact hvmin b hb hbc
      · have hfind : actors.find? (fun a => a.id = v.id) = some v :=
          find_by_id actors hnd v hvmem
        rw [turretStep, if_neg hact, hid, ← hvid]
        dsimp only
        rw [hfind]
        dsimp only
        by_cases hhp : v.hp - 1 > 0
        · rw [if_pos hhp, if_pos hhp, if_pos hhp]
        · rw [if_neg hhp, if_neg hhp, if_neg hhp]

/-- Witness for `turret_firing_step`: the demo turret with two enemies in
its eastward cone at time 10. -/
theorem turret_firing_step_witness :
    ((∀ a ∈ demoActors, isTargetCandidate demoTurretUnit a = false) →
      turretStep demoTurretUnit demoActors 10 = (demoTurretUnit, demoActors, [], false))
    ∧ ((∃ a ∈ demoActors, isTargetCandidate demoTurretUnit a = true) →
      ∃ v ∈ demoActors, isTargetCandidate demoTurretUnit v = true ∧
        (∀ b ∈ demoActors, isTargetCandidate demoTurretUnit b = true →
          dist2 v.pos demoTurretUnit.pos ≤ dist2 b.pos demoTurretUnit.pos) ∧
        turretStep demoTurretUnit demoActors 10 =
          (⟨demoTurretUnit.id, demoTurretUnit.pos,
             ⟨demoTurretUnit.data.owner, demoTurretUnit.data.direction, 10⟩⟩,
           demoActors.map (fun a => if a.id = v.id then
             ⟨a.id, a.pos, a.hp - 1, a.hpMax, a.isUser⟩ else a),
           GameEvent.damageDealt demoTurretUnit.data.owner v.id 1 10 ::
             (if v.hp - 1 > 0 then []
              else [GameEvent.playerEliminated v.id (some demoTurretUnit.data.owner) 10]),
           if v.hp - 1 > 0 then false else v.isUser)) :=
  turret_firing_step demoTurretUnit demoActors 10 (by decide)
    (by norm_num [demoTurretUnit])

/-- Tile conversion at a point `4·n + 2` (a tile centre for tile size 4). -/
theorem worldToTile_of_eq (config : ArenaConfig) (v : ℚ) (n : Int)
    (hts : config.tile_size = 4) (hv : v = 4 * n + 2) :
    worldToTile config v = n := by
  rw [worldToTile, hts, hv]
  rw [show ((4 * (n : ℚ) + 2) - 4 * (1 / 2)) / 4 = (n : ℚ) by ring]
  exact Int.floor_intCast n

/-- The `all` scan of `has_line_of_sight` holds exactly when every
rasterized tile other than the start tile is unblocked. -/
theorem losAll_char (config : ArenaConfig) (grid : ArenaGrid) (x1 z1 : Int)
    (l : List (Int × Int)) :
    (l.all (fun t => (decide (t.1 = x1) && decide (t.2 = z1)) || !tileBlocked config grid t)
      = true) ↔ ∀ t ∈ l, t ≠ (x1, z1) → tileBlocked config grid t = false := by
  rw [List.all_eq_true]
  constructor
  · intro h t ht hne
    have := h t ht
    simp only [Bool.or_eq_true, Bool.and_eq_true, decide_eq_true_eq, Bool.not_eq_true'] at this
    rcases this with ⟨h1, h2⟩ | hb
    · exact absurd (Prod.ext h1 h2) hne
    · exact hb
  · intro h t ht
    simp only [Bool.or_eq_true, Bool.and_eq_true, decide_eq_true_eq, Bool.not_eq_true']
    by_cases hne : t = (x1, z1)
    · exact Or.inl ⟨congrArg Prod.fst hne, congrArg Prod.snd hne⟩
    · exact Or.inr (h t ht hne)

/-- The rasterized segment starts at the start tile. -/
theorem get_line_head (x0 y0 x1 y1 : Int) :
    ∃ rest, get_line x0 y0 x1 y1 = (x0, y0) :: rest := by
  rw [get_line]
  exact ⟨_, by rw [bresenhamLoop]⟩

/-- Claim C6 (amended): `has_line_of_sight` is symmetric whenever the two
endpoint tiles are equally blocked and the two rasterizations cover the
same tiles.  (In general it is asymmetric: the start tile is skipped but
the end tile is checked, and the Bresenham rasterization depends on the
traversal direction.) -/
theorem los_conditional_symmetry (pStart pEnd : Vec3Q) (config : ArenaConfig)
    (grid : ArenaGrid) (x1 z1 x2 z2 : Int)
    (hx1 : worldToTile config pStart.x = x1) (hz1 : worldToTile config pStart.z = z1)
    (hx2 : worldToTile config pEnd.x = x2) (hz2 : worldToTile config pEnd.z = z2)
    (hend : tileBlocked config grid (x1, z1) = tileBlocked config grid (x2, z2))
    (hsub1 : ∀ t ∈ get_line x1 z1 x2 z2, t ∈ get_line x2 z2 x1 z1)
    (hsub2 : ∀ t ∈ get_line x2 z2 x1 z1, t ∈ get_line x1 z1 x2 z2) :
    has_line_of_sight pStart pEnd config grid =
      has_line_of_sight pEnd pStart config grid := by
  simp only [has_line_of_sight, hx1, hz1, hx2, hz2]
  by_cases heq : ((x1, z1) : Int × Int) = (x2, z2)
  · have e1 : x1 = x2 := congrArg Prod.fst heq
    have e2 : z1 = z2 := congrArg Prod.snd heq
    rw [e1, e2]
  · cases hb : tileBlocked config grid (x1, z1) with
    | false =>
      have hb2 : tileBlocked config grid (x2, z2) = false := hend ▸ hb
      rw [Bool.eq_iff_iff, losAll_char, losAll_char]
      constructor
      · intro h t ht _
        have ht12 := hsub2 t ht
        by_cases he : t = (x1, z1)
        · rw [he]
          exact hb
        · exact h t ht12 he
      · intro h t ht _
        have ht21 := hsub1 t ht
        by_cases he : t = (x2, z2)
        · rw [he]
          exact hb2
        · exact h t ht21 he
    | true =>
      have hb2 : tileBlocked config grid (x2, z2) = true := hend ▸ hb
      have hL12 : (get_line x1 z1 x2 z2).all
          (fun t => (decide (t.1 = x1) && decide (t.2 = z1)) ||
            !tileBlocked config grid t) = false := by
        apply eq_false_of_ne_true
        intro hall
        obtain ⟨r2, hr2⟩ := get_line_head x2 z2 x1 z1
        have hm : ((x2, z2) : Int × Int) ∈ get_line x1 z1 x2 z2 :=
          hsub2 _ (by rw [hr2]; exact List.mem_cons_self _ _)
        have hfree := (losAll_char config grid x1 z1 _).mp hall (x2, z2) hm
          (fun he => heq he.symm)
        rw [hb2] at hfree
        exact Bool.noConfusion hfree
      have hL21 : (get_line x2 z2 x1 z1).all
          (fun t => (decide (t.1 = x2) && decide (t.2 = z2)) ||
            !tileBlocked config grid t) = false := by
        apply eq_false_of_ne_true
        intro hall
        obtain ⟨r1, hr1⟩ := get_line_head x1 z1 x2 z2
        have hm : ((x1, z1) : Int × Int) ∈ get_line x2 z2 x1 z1 :=
          hsub1 _ (by rw [hr1]; exact List.mem_cons_self _ _)
        have hfree := (losAll_char config grid x2 z2 _).mp hall (x1, z1) hm heq
        rw [hb] at hfree
        exact Bool.noConfusion hfree
      rw [hL12, hL21]

/-- Claim C6 (counterexample): with a single obstacle at (1,0) on a 3×2
grid, sight from the centre of (0,0) to the centre of (2,1) exists, but
sight in the opposite direction does not: the two Bresenham rasterizations
traverse different tiles ((1,1) one way, (1,0) the other). -/
theorem los_asymmetry_cex :
    has_line_of_sight (worldCenter 0 0) (worldCenter 2 1) c6Config c6Grid = true ∧
    has_line_of_sight (worldCenter 2 1) (worldCenter 0 0) c6Config c6Grid = false := by
  have h00x : worldToTile c6Config (worldCenter 0 0).x = 0 :=
    worldToTile_of_eq _ _ _ rfl (by norm_num [worldCenter])
  have h00z : worldToTile c6Config (worldCenter 0 0).z = 0 :=
    worldToTile_of_eq _ _ _ rfl (by norm_num [worldCenter])
  have h21x : worldToTile c6Config (worldCenter 2 1).x = 2 :=
    worldToTile_of_eq _ _ _ rfl (by norm_num [worldCenter])
  have h21z : worldToTile c6Config (worldCenter 2 1).z = 1 :=
    worldToTile_of_eq _ _ _ rfl (by norm_num [worldCenter])
  constructor
  · simp only [has_line_of_sight, h00x, h00z, h21x, h21z]
    decide
  · simp only [has_line_of_sight, h00x, h00z, h21x, h21z]
    decide

/-- Witness for `los_conditional_symmetry`: both tile centres (0,0) and
(2,0) are free, the horizontal rasterizations cover the same tiles, so the
two directions agree (both blocked by the obstacle at (1,0)). -/
theorem los_conditional_symmetry_witness :
    tileBlocked c6Config c6Grid (0, 0) = tileBlocked c6Config c6Grid (2, 0) ∧
    has_line_of_sight (worldCenter 0 0) (worldCenter 2 0) c6Config c6Grid =
      has_line_of_sight (worldCenter 2 0) (worldCenter 0 0) c6Config c6Grid := by
  refine ⟨by decide, ?_⟩
  exact los_conditional_symmetry (worldCenter 0 0) (worldCenter 2 0) c6Config c6Grid
    0 0 2 0
    (worldToTile_of_eq _ _ _ rfl (by norm_num [worldCenter]))
    (worldToTile_of_eq _ _ _ rfl (by norm_num [worldCenter]))
    (worldToTile_of_eq _ _ _ rfl (by norm_num [worldCenter]))
    (worldToTile_of_eq _ _ _ rfl (by norm_num [worldCenter]))
    (by decide) (by decide) (by decide)

/-- A successful lookup comes from a list entry. -/
theorem lookupA_mem {β : Type} (k : Coord) (v : β) :
    ∀ l : List (Coord × β), lookupA k l = some v → (k, v) ∈ l := by
  intro l
  induction l with
  | nil => intro h; exact Option.noConfusion h
  | cons e rest ih =>
    intro h
    rw [lookupA] at h
    split at h
    · rename_i he
      obtain ⟨k', v'⟩ := e
      cases h
      exact he ▸ List.mem_cons_self _ _
    · exact List.mem_cons_of_mem _ (ih h)

/-- Lookup after inserting the same key. -/
theorem lookupA_insert_self {β : Type} (k : Coord) (v : β) (l : List (Coord × β)) :
    lookupA k (insertA k v l) = some v := by
  simp [lookupA, insertA]

/-- Lookup after inserting a different key. -/
theorem lookupA_insert_ne {β : Type} (k n : Coord) (v : β) (l : List (Coord × β))
    (h : n ≠ k) : lookupA k (insertA n v l) = lookupA k l := by
  simp [lookupA, insertA, h]

/-- `distOf` of an inserted key. -/
theorem distOf_insert_self (n : Coord) (c : Nat) (dist : List (Coord × Nat)) :
    distOf (insertA n c dist) n = c := by
  simp [distOf, lookupA_insert_self]

/-- `distOf` elsewhere is unchanged by an insert. -/
theorem distOf_insert_ne (n k : Coord) (c : Nat) (dist : List (Coord × Nat))
    (h : n ≠ k) : distOf (insertA n c dist) k = distOf dist k := by
  simp [distOf, lookupA_insert_ne k n c dist h]

/-- Stored distances below `cap` make `distOf` at most `cap`. -/
theorem distOf_le_cap (dist : List (Coord × Nat)) (k : Coord)
    (hval : ∀ k' d, lookupA k' dist = some d → d < cap) :
    distOf dist k ≤ cap := by
  rw [distOf]
  cases h : lookupA k dist with
  | none => simp
  | some d => simpa using le_of_lt (hval k d h)

/-- A `distOf` strictly below `cap` witnesses a stored entry. -/
theorem distOf_lt_cap_exists (dist : List (Coord × Nat)) (k : Coord)
    (h : distOf dist k < cap) : ∃ d, lookupA k dist = some d := by
  rw [distOf] at h
  cases hl : lookupA k dist with
  | none => rw [hl] at h; simp at h
  | some d => exact ⟨d, rfl⟩

/-- Step costs are at least 10. -/
theorem stepCost_ge (p n : Coord) : 10 ≤ stepCost p n := by
  rw [stepCost]
  split <;> omega

/-- Step costs are at most 14. -/
theorem stepCost_le (p n : Coord) : stepCost p n ≤ 14 := by
  rw [stepCost]
  split <;> omega

/-- `popMax` returns `none` only on the empty heap. -/
theorem popMax_eq_none (l : List StateP) : popMax l = none ↔ l = [] := by
  cases l with
  | nil => simp [popMax]
  | cons x xs =>
    refine iff_of_false ?_ (by intro h; exact List.noConfusion h)
    intro h
    rw [popMax] at h
    cases hxs : popMax xs with
    | none => rw [hxs] at h; exact Option.noConfusion h
    | some p =>
      obtain ⟨m, rest⟩ := p
      rw [hxs] at h
      dsimp only at h
      split at h <;> exact Option.noConfusion h

/-- A pop is a permutation: the heap splits into the popped element and
the remainder. -/
theorem popMax_perm : ∀ (l : List StateP) (s : StateP) (rest : List StateP),
    popMax l = some (s, rest) → l.Perm (s :: rest) := by
  intro l
  induction l with
  | nil => intro s rest h; exact Option.noConfusion h
  | cons x xs ih =>
    intro s rest h
    rw [popMax] at h
    cases hxs : popMax xs with
    | none =>
      rw [hxs] at h
      cases h
      have hnil : xs = [] := (popMax_eq_none xs).mp hxs
      rw [hnil]
    | some p =>
      obtain ⟨m, r⟩ := p
      rw [hxs] at h
      dsimp only at h
      split at h
      · cases h
        exact (List.Perm.cons x (ih s r hxs)).trans (List.Perm.swap s x r)
      · cases h
        exact List.Perm.refl _

/-- The start position is in the universe. -/
theorem start_mem_navUniverse (graph : NavGraph) (start : Coord) :
    start ∈ navUniverse graph start := by
  simp [navUniverse, List.mem_dedup]

/-- Every graph key is in the universe. -/
theorem key_mem_navUniverse (graph : NavGraph) (start p : Coord) (l : List Coord)
    (h : lookupA p graph = some l) : p ∈ navUniverse graph start := by
  have hm := lookupA_mem p l graph h
  simp only [navUniverse, List.mem_dedup, List.mem_cons, List.mem_append]
  exact Or.inr (Or.inl (List.mem_map_of_mem Prod.fst hm))

/-- Every listed neighbour is in the universe. -/
theorem nbr_mem_navUniverse (graph : NavGraph) (start p n : Coord) (l : List Coord)
    (h : lookupA p graph = some l) (hn : n ∈ l) : n ∈ navUniverse graph start := by
  have hm := lookupA_mem p l graph h
  simp only [navUniverse, List.mem_dedup, List.mem_cons, List.mem_append]
  refine Or.inr (Or.inr ?_)
  rw [List.mem_flatMap]
  exact ⟨(p, l), hm, hn⟩

/-- The universe has no duplicates. -/
theorem navUniverse_nodup (graph : NavGraph) (start : Coord) :
    (navUniverse graph start).Nodup :=
  List.nodup_dedup _

/-- The executable well-formedness check in `Prop` form. -/
theorem wellFormed_spec (graph : NavGraph) (h : wellFormedGraph graph = true) :
    ∀ p l, lookupA p graph = some l → ∀ n ∈ l, (lookupA n graph).isSome := by
  intro p l hp n hn
  rw [wellFormedGraph, List.all_eq_true] at h
  have := h (p, l) (lookupA_mem p l graph hp)
  rw [List.all_eq_true] at this
  exact this n hn

/-- A graph edge out of a node of a well-formed graph lands on a node. -/
theorem wellFormed_edge (graph : NavGraph) (h : wellFormedGraph graph = true)
    (p n : Coord) (he : graphEdge graph p n) : (lookupA n graph).isSome := by
  obtain ⟨l, hl, hn⟩ := he
  exact wellFormed_spec graph h p l hl n hn

/-- Sums over a universe avoid keys not in it. -/
theorem sumDist_insert_not_mem (u : List Coord) (n : Coord) (c : Nat)
    (dist : List (Coord × Nat)) (h : n ∉ u) :
    sumDist u (insertA n c dist) = sumDist u dist := by
  rw [sumDist, sumDist]
  congr 1
  apply List.map_congr_left
  intro k hk
  exact distOf_insert_ne n k c dist (fun he => h (he ▸ hk))

/-- A strict improvement at a universe key strictly decreases the sum. -/
theorem sumDist_insert_lt (u : List Coord) (hu : u.Nodup) (n : Coord) (c : Nat)
    (dist : List (Coord × Nat)) (hn : n ∈ u) (hc : c < distOf dist n) :
    sumDist u (insertA n c dist) < sumDist u dist := by
  induction u with
  | nil => cases hn
  | cons x u' ih =>
    rw [List.nodup_cons] at hu
    rw [sumDist, List.map_cons, List.sum_cons, sumDist, List.map_cons, List.sum_cons]
    rcases List.mem_cons.mp hn with rfl | hn'
    · rw [distOf_insert_self]
      have : sumDist u' (insertA n c dist) = sumDist u' dist :=
        sumDist_insert_not_mem u' n c dist hu.1
      rw [sumDist] at this
      rw [this]
      exact Nat.add_lt_add_right hc _
    · have hxn : n ≠ x := fun he => hu.1 (he ▸ hn')
      rw [distOf_insert_ne n x c dist hxn]
      have := ih hu.2 hn'
      rw [sumDist, sumDist] at this
      exact Nat.add_lt_add_left this _

/-- `distOf` of a stored entry. -/
theorem distOf_of_lookup (dist : List (Coord × Nat)) (k : Coord) (d : Nat)
    (h : lookupA k dist = some d) : distOf dist k = d := by
  rw [distOf, h]
  rfl

/-- Inserting never removes a stored entry. -/
theorem lookupA_insert_isSome {β : Type} (k n : Coord) (c : β) (l : List (Coord × β))
    (h : (lookupA k l).isSome) : (lookupA k (insertA n c l)).isSome := by
  by_cases he : n = k
  · subst he
    rw [lookupA_insert_self]
    rfl
  · rw [lookupA_insert_ne k n c l he]
    exact h

/-- Case analysis of one relaxation: either no strict improvement and the
state is unchanged, or the improved distance, the pushed frontier entry
and the predecessor record. -/
theorem relaxStep_cases (goal pos n : Coord)
    (st : List (Coord × Nat) × List StateP × List (Coord × Coord)) :
    (¬ (distOf st.1 pos + stepCost pos n < distOf st.1 n) ∧ relaxStep goal pos st n = st) ∨
    ((distOf st.1 pos + stepCost pos n < distOf st.1 n) ∧
      relaxStep goal pos st n =
        (insertA n (distOf st.1 pos + stepCost pos n) st.1,
         ⟨distOf st.1 pos + stepCost pos n + heuristic n goal, n⟩ :: st.2.1,
         insertA n pos st.2.2)) := by
  by_cases h : distOf st.1 pos + stepCost pos n < distOf st.1 n
  · exact Or.inr ⟨h, by rw [relaxStep]; simp [h]⟩
  · exact Or.inl ⟨h, by rw [relaxStep]; simp [h]⟩

/-- One improving relaxation preserves the core invariants (and the
improved key is neither the popped node nor the start). -/
theorem core_after_improve (graph : NavGraph) (start goal pos n : Coord)
    (dist : List (Coord × Nat)) (heap : List StateP) (cf : List (Coord × Coord))
    (hcore : AStarCore graph start goal dist heap cf)
    (hpos : ∃ dpos, lookupA pos dist = some dpos)
    (hreachpos : GraphReach graph start pos)
    (hedge : graphEdge graph pos n)
    (hc : distOf dist pos + stepCost pos n < distOf dist n) :
    AStarCore graph start goal (insertA n (distOf dist pos + stepCost pos n) dist)
      (⟨distOf dist pos + stepCost pos n + heuristic n goal, n⟩ :: heap)
      (insertA n pos cf) ∧ n ≠ pos ∧ n ≠ start := by
  obtain ⟨dpos, hdpos⟩ := hpos
  have hdposv : distOf dist pos = dpos := distOf_of_lookup dist pos dpos hdpos
  have hstep10 : 10 ≤ stepCost pos n := stepCost_ge pos n
  have hnpos : n ≠ pos := by
    intro he
    rw [he] at hc
    omega
  have hd0 : distOf dist start = 0 := distOf_of_lookup dist start 0 hcore.start0
  have hnstart : n ≠ start := by
    intro he
    rw [he, hd0] at hc
    omega
  have hccap : distOf dist pos + stepCost pos n < cap :=
    lt_of_lt_of_le hc (distOf_le_cap dist n hcore.val_lt)
  refine ⟨⟨?_, ?_, ?_, ?_, ?_, ?_, ?_⟩, hnpos, hnstart⟩
  · intro s hs
    rcases List.mem_cons.mp hs with rfl | hs'
    · exact ⟨_, lookupA_insert_self n _ dist⟩
    · obtain ⟨d, hd⟩ := hcore.heap_dist s hs'
      by_cases he : n = s.position
      · exact ⟨_, by rw [← he]; exact lookupA_insert_self n _ dist⟩
      · exact ⟨d, by rw [lookupA_insert_ne s.position n _ dist he]; exact hd⟩
  · intro k d hk
    by_cases he : n = k
    · subst he
      rw [lookupA_insert_self] at hk
      cases hk
      exact hccap
    · rw [lookupA_insert_ne k n _ dist he] at hk
      exact hcore.val_lt k d hk
  · rw [lookupA_insert_ne start n _ dist (fun he => hnstart he)]
    exact hcore.start0
  · intro k v hk
    by_cases he : n = k
    · subst he
      rw [lookupA_insert_self] at hk
      cases hk
      refine ⟨distOf dist pos + stepCost pos n, dpos,
        lookupA_insert_self n _ dist, ?_, ?_⟩
      · rw [lookupA_insert_ne pos n _ dist (fun he2 => hnpos he2)]
        exact hdpos
      · omega
    · rw [lookupA_insert_ne k n pos cf he] at hk
      obtain ⟨dk, dv, hdk, hdv, hlt⟩ := hcore.cf_chain k v hk
      by_cases hv : n = v
      · subst hv
        refine ⟨dk, distOf dist pos + stepCost pos n, ?_, lookupA_insert_self n _ dist, ?_⟩
        · rw [lookupA_insert_ne k n _ dist he]
          exact hdk
        · have : distOf dist n = dv := distOf_of_lookup dist n dv hdv
          omega
      · refine ⟨dk, dv, ?_, ?_, hlt⟩
        · rw [lookupA_insert_ne k n _ dist he]
          exact hdk
        · rw [lookupA_insert_ne v n _ dist hv]
          exact hdv
  · intro k d hk hkstart
    by_cases he : n = k
    · subst he
      exact ⟨pos, lookupA_insert_self n pos cf⟩
    · rw [lookupA_insert_ne k n _ dist he] at hk
      obtain ⟨v, hv⟩ := hcore.dist_cf k d hk hkstart
      exact ⟨v, (lookupA_insert_ne k n pos cf he).symm ▸ hv⟩
  · intro d hk
    by_cases he : n = goal
    · exact ⟨⟨distOf dist pos + stepCost pos n + heuristic n goal, n⟩, by simp, he⟩
    · rw [lookupA_insert_ne goal n _ dist he] at hk
      obtain ⟨s, hs, hsp⟩ := hcore.goal_heap d hk
      exact ⟨s, List.mem_cons_of_mem _ hs, hsp⟩
  · intro s hs
    rcases List.mem_cons.mp hs with rfl | hs'
    · exact Relation.ReflTransGen.tail hreachpos hedge
    · exact hcore.reach_heap s hs'

/-- Inserting a not-larger value only lowers `distOf` pointwise. -/
theorem distOf_insert_le (n k : Coord) (c : Nat) (dist : List (Coord × Nat))
    (hc : c ≤ distOf dist n) :
    distOf (insertA n c dist) k ≤ distOf dist k := by
  by_cases he : n = k
  · subst he
    rw [distOf_insert_self]
    exact hc
  · rw [distOf_insert_ne n k c dist he]

/-- Relaxing a neighbour list preserves the core invariants, keeps all old
heap entries, only lowers distances, leaves the popped node's distance
unchanged, establishes the triangle inequality for every relaxed
neighbour, pushes every strictly improved key, and does not increase the
loop measure. -/
theorem relaxList_spec (graph : NavGraph) (start goal pos : Coord) (u : List Coord)
    (hu : u.Nodup) (hreachpos : GraphReach graph start pos) :
    ∀ (ns : List Coord) (dist : List (Coord × Nat)) (heap : List StateP)
      (cf : List (Coord × Coord)),
      (∀ n ∈ ns, n ∈ u) →
      (∀ n ∈ ns, graphEdge graph pos n) →
      (∃ dpos, lookupA pos dist = some dpos) →
      AStarCore graph start goal dist heap cf →
      AStarCore graph start goal (relaxList goal pos ns (dist, heap, cf)).1
          (relaxList goal pos ns (dist, heap, cf)).2.1
          (relaxList goal pos ns (dist, heap, cf)).2.2 ∧
        (∀ x ∈ heap, x ∈ (relaxList goal pos ns (dist, heap, cf)).2.1) ∧
        (∀ k, distOf (relaxList goal pos ns (dist, heap, cf)).1 k ≤ distOf dist k) ∧
        distOf (relaxList goal pos ns (dist, heap, cf)).1 pos = distOf dist pos ∧
        (∀ n ∈ ns, distOf (relaxList goal pos ns (dist, heap, cf)).1 n ≤
          distOf (relaxList goal pos ns (dist, heap, cf)).1 pos + stepCost pos n) ∧
        (∀ k, distOf (relaxList goal pos ns (dist, heap, cf)).1 k < distOf dist k →
          ∃ x ∈ (relaxList goal pos ns (dist, heap, cf)).2.1, x.position = k) ∧
        loopMeasure u (relaxList goal pos ns (dist, heap, cf)).1
          (relaxList goal pos ns (dist, heap, cf)).2.1 ≤ loopMeasure u dist heap := by
  intro ns
  induction ns with
  | nil =>
    intro dist heap cf _ _ _ hcore
    refine ⟨hcore, fun x hx => hx, fun k => le_refl _, rfl, by simp, ?_, le_refl _⟩
    intro k hk
    exact absurd hk (lt_irrefl _)
  | cons n ns' ih =>
    intro dist heap cf hnsu hedges hpos hcore
    have hrel : relaxList goal pos (n :: ns') (dist, heap, cf) =
        relaxList goal pos ns' (relaxStep goal pos (dist, heap, cf) n) := rfl
    rcases relaxStep_cases goal pos n (dist, heap, cf) with ⟨hnlt, heq⟩ | ⟨hlt, heq⟩
    · rw [hrel, heq]
      obtain ⟨hcore', hheap', hmono, hposeq, hns, himp, hmeas⟩ :=
        ih dist heap cf (fun m hm => hnsu m (List.mem_cons_of_mem n hm))
          (fun m hm => hedges m (List.mem_cons_of_mem n hm)) hpos hcore
      refine ⟨hcore', hheap', hmono, hposeq, ?_, himp, hmeas⟩
      intro m hm
      rcases List.mem_cons.mp hm with rfl | hm'
      · have h1 : distOf dist m ≤ distOf dist pos + stepCost pos m := le_of_not_lt hnlt
        have h2 := hmono m
        rw [hposeq]
        omega
      · exact hns m hm'
    · rw [hrel, heq]
      set c := distOf dist pos + stepCost pos n with hcdef
      obtain ⟨hcore1, hnpos, hnstart⟩ :=
        core_after_improve graph start goal pos n dist heap cf hcore hpos hreachpos
          (hedges n (List.mem_cons_self n ns')) hlt
      obtain ⟨dpos, hdpos⟩ := hpos
      have hpos1 : ∃ d, lookupA pos (insertA n c dist) = some d :=
        ⟨dpos, by rw [lookupA_insert_ne pos n c dist (fun he => hnpos he)]; exact hdpos⟩
      obtain ⟨hcore', hheap', hmono, hposeq, hns, himp, hmeas⟩ :=
        ih (insertA n c dist) (⟨c + heuristic n goal, n⟩ :: heap) (insertA n pos cf)
          (fun m hm => hnsu m (List.mem_cons_of_mem n hm))
          (fun m hm => hedges m (List.mem_cons_of_mem n hm)) hpos1 hcore1
      have hins_self : distOf (insertA n c dist) n = c := distOf_insert_self n c dist
      have hins_pos : distOf (insertA n c dist) pos = distOf dist pos :=
        distOf_insert_ne n pos c dist hnpos
      refine ⟨hcore', ?_, ?_, ?_, ?_, ?_, ?_⟩
      · intro x hx
        exact hheap' x (List.mem_cons_of_mem _ hx)
      · intro k
        exact le_trans (hmono k) (distOf_insert_le n k c dist (le_of_lt hlt))
      · rw [hposeq, hins_pos]
      · intro m hm
        rcases List.mem_cons.mp hm with rfl | hm'
        · have h1 : distOf (relaxList goal pos ns'
              (insertA m c dist, ⟨c + heuristic m goal, m⟩ :: heap, insertA m pos cf)).1 m
              ≤ c := by
            have := hmono m
            rwa [hins_self] at this
          rw [hposeq, hins_pos, ← hcdef]
          exact h1
        · exact hns m hm'
      · intro k hk
        by_cases hlt1 : distOf (relaxList goal pos ns'
            (insertA n c dist, ⟨c + heuristic n goal, n⟩ :: heap, insertA n pos cf)).1 k <
            distOf (insertA n c dist) k
        · exact himp k hlt1
        · by_cases hkn : k = n
          · subst hkn
            exact ⟨⟨c + heuristic k goal, k⟩, hheap' _ (List.mem_cons_self _ _), rfl⟩
          · have hle := hmono k
            have heqk : distOf (relaxList goal pos ns'
                (insertA n c dist, ⟨c + heuristic n goal, n⟩ :: heap, insertA n pos cf)).1 k =
                distOf (insertA n c dist) k := le_antisymm hle (le_of_not_lt hlt1)
            rw [heqk, distOf_insert_ne n k c dist (fun he => hkn he.symm)] at hk
            exact absurd hk (lt_irrefl _)
      · refine le_trans hmeas ?_
        rw [loopMeasure, loopMeasure, List.length_cons]
        have hsum : sumDist u (insertA n c dist) < sumDist u dist :=
          sumDist_insert_lt u hu n c dist (hnsu n (List.mem_cons_self n ns')) hlt
        omega

/-- A successful reconstruction starts at the start tile and ends where
the walk-back began (the goal, for the loop's invocation). -/
theorem reconstructPath_shape (start : Coord) (cf : List (Coord × Coord)) :
    ∀ (fuel : Nat) (current : Coord) (acc l : List Coord),
      reconstructPath start cf fuel current acc = some l →
      l.head? = some start ∧ l.getLast? = (current :: acc).getLast? := by
  intro fuel
  induction fuel with
  | zero => intro current acc l h; exact Option.noConfusion h
  | succ f ih =>
    intro current acc l h
    rw [reconstructPath] at h
    split at h
    · rename_i hcs
      cases h
      refine ⟨rfl, ?_⟩
      rw [hcs]
    · rename_i hcs
      cases hcf : lookupA current cf with
      | none => rw [hcf] at h; exact Option.noConfusion h
      | some prev =>
        rw [hcf] at h
        obtain ⟨h1, h2⟩ := ih prev (current :: acc) l h
        exact ⟨h1, h2.trans (List.getLast?_cons_cons)⟩

/-- With sound predecessor records, reconstruction succeeds whenever the
walk-back start has a recorded distance larger than the remaining budget
allows to decrease. -/
theorem reconstructPath_isSome (start : Coord) (cf : List (Coord × Coord))
    (dist : List (Coord × Nat))
    (hchain : ∀ k v, lookupA k cf = some v →
      ∃ dk dv, lookupA k dist = some dk ∧ lookupA v dist = some dv ∧ dv < dk)
    (hcf : ∀ k d, lookupA k dist = some d → k ≠ start → ∃ v, lookupA k cf = some v) :
    ∀ (d : Nat), ∀ (current : Coord) (acc : List Coord) (fuel : Nat),
      lookupA current dist = some d → d < fuel →
      (reconstructPath start cf fuel current acc).isSome := by
  intro d
  induction d using Nat.strong_induction_on with
  | _ d ih =>
    intro current acc fuel hcur hfuel
    cases fuel with
    | zero => omega
    | succ f =>
      rw [reconstructPath]
      by_cases hcs : current = start
      · simp [hcs]
      · rw [if_neg hcs]
        obtain ⟨v, hv⟩ := hcf current d hcur hcs
        rw [hv]
        obtain ⟨dk, dv, hdk, hdv, hlt⟩ := hchain current v hv
        have hdkd : dk = d := by
          rw [hcur] at hdk
          exact (Option.some.inj hdk).symm
        exact ih dv (by omega) v (current :: acc) f hdv (by omega)

/-- Whatever `astarLoop` returns begins at the start and ends at the goal. -/
theorem astarLoop_shape (graph : NavGraph) (start goal : Coord) :
    ∀ (fuel : Nat) (dist : List (Coord × Nat)) (heap : List StateP)
      (cf : List (Coord × Coord)) (p : List Coord),
      astarLoop graph start goal fuel dist heap cf = some p →
      p.head? = some start ∧ p.getLast? = some goal := by
  intro fuel
  induction fuel with
  | zero => intro _ _ _ p h; exact Option.noConfusion h
  | succ f ih =>
    intro dist heap cf p h
    rw [astarLoop] at h
    cases hpop : popMax heap with
    | none => rw [hpop] at h; exact Option.noConfusion h
    | some pr =>
      obtain ⟨s, rest⟩ := pr
      rw [hpop] at h
      dsimp only at h
      split at h
      · obtain ⟨h1, h2⟩ := reconstructPath_shape start cf _ goal [] p h
        exact ⟨h1, h2⟩
      · cases hlk : lookupA s.position graph with
        | none => rw [hlk] at h; exact ih _ _ _ p h
        | some nbrs =>
          rw [hlk] at h
          dsimp only at h
          exact ih _ _ _ p h

/-- Under full stability (empty frontier), distances grow by at most 14
per hop along any chain. -/
theorem stab_chain_bound (graph : NavGraph) (dist : List (Coord × Nat))
    (hstab : ∀ m l, lookupA m graph = some l → ∀ n ∈ l,
      distOf dist n ≤ distOf dist m + stepCost m n) :
    ∀ (ws : List Coord) (a g : Coord), List.Chain (graphEdge graph) a ws →
      (a :: ws).getLast? = some g →
      distOf dist g ≤ distOf dist a + 14 * ws.length := by
  intro ws
  induction ws with
  | nil =>
    intro a g _ hlast
    rw [List.getLast?_singleton] at hlast
    cases hlast
    simp
  | cons b ws' ih =>
    intro a g hch hlast
    rw [List.chain_cons] at hch
    obtain ⟨hab, hch'⟩ := hch
    rw [List.getLast?_cons_cons] at hlast
    have h1 := ih b g hch' hlast
    obtain ⟨l, hl, hb⟩ := hab
    have h2 := hstab a l hl b hb
    have h3 := stepCost_le a b
    rw [List.length_cons]
    omega

/-- Every chain can be shortened to a duplicate-free chain with the same
endpoints, drawing only on the original nodes. -/
theorem chain_dedup (r : Coord → Coord → Prop) :
    ∀ (n : Nat) (a : Coord) (l : List Coord), l.length ≤ n → List.Chain r a l →
      ∃ l', List.Chain r a l' ∧ l'.length ≤ l.length ∧ (∀ x ∈ l', x ∈ l) ∧
        (a :: l').getLast? = (a :: l).getLast? ∧ (a :: l').Nodup := by
  intro n
  induction n with
  | zero =>
    intro a l hlen hch
    have hnil : l = [] := List.length_eq_zero.mp (Nat.le_zero.mp hlen)
    subst hnil
    exact ⟨[], List.Chain.nil, le_refl _, fun x hx => hx, rfl, by simp⟩
  | succ n' ih =>
    intro a l hlen hch
    by_cases hnd : (a :: l).Nodup
    · exact ⟨l, hch, le_refl _, fun x hx => hx, rfl, hnd⟩
    · by_cases ha : a ∈ l
      · obtain ⟨l1, l2, rfl⟩ := List.append_of_mem ha
        have hch2 : List.Chain r a l2 := (List.chain_split.mp hch).2
        have hlen2 : l2.length ≤ n' := by
          rw [List.length_append, List.length_cons] at hlen
          omega
        obtain ⟨l', hch', hlen', hsub', hlast', hnd'⟩ := ih a l2 hlen2 hch2
        refine ⟨l', hch', ?_, ?_, ?_, hnd'⟩
        · rw [List.length_append, List.length_cons]
          omega
        · intro x hx
          rw [List.mem_append, List.mem_cons]
          exact Or.inr (Or.inr (hsub' x hx))
        · rw [hlast']
          rw [show a :: (l1 ++ a :: l2) = (a :: l1) ++ (a :: l2) by simp]
          rw [List.getLast?_append]
          rw [List.getLast?_eq_getLast (a :: l2) (List.cons_ne_nil a l2)]
          rfl
      · cases l with
        | nil => exact absurd (by simp) hnd
        | cons b lt =>
          rw [List.chain_cons] at hch
          obtain ⟨hab, hch'⟩ := hch
          have hlenlt : lt.length ≤ n' := by
            rw [List.length_cons] at hlen
            omega
          obtain ⟨lt', hch'', hlen', hsub', hlast', hnd'⟩ := ih b lt hlenlt hch'
          refine ⟨b :: lt', List.chain_cons.mpr ⟨hab, hch''⟩, ?_, ?_, ?_, ?_⟩
          · rw [List.length_cons, List.length_cons]
            omega
          · intro x hx
            rcases List.mem_cons.mp hx with rfl | hx'
            · exact List.mem_cons_self _ _
            · exact List.mem_cons_of_mem _ (hsub' x hx')
          · rw [List.getLast?_cons_cons, List.getLast?_cons_cons, hlast']
          · rw [List.nodup_cons]
            refine ⟨?_, hnd'⟩
            intro hmem
            rcases List.mem_cons.mp hmem with rfl | hmem'
            · exact ha (List.mem_cons_self _ _)
            · exact ha (List.mem_cons_of_mem _ (hsub' a hmem'))

/-- A duplicate-free list drawing from another list is no longer. -/
theorem nodup_length_le (l1 l2 : List Coord) (hnd : l1.Nodup)
    (hsub : ∀ x ∈ l1, x ∈ l2) : l1.length ≤ l2.length := by
  have h1 : l1.toFinset.card = l1.length := List.toFinset_card_of_nodup hnd
  have h2 : l1.toFinset ⊆ l2.toFinset := by
    intro x hx
    rw [List.mem_toFinset] at hx ⊢
    exact hsub x hx
  calc l1.length = l1.toFinset.card := h1.symm
    _ ≤ l2.toFinset.card := Finset.card_le_card h2
    _ ≤ l2.length := List.toFinset_card_le l2

/-- Nodes of a chain out of a graph node live in the universe. -/
theorem chain_mem_navUniverse (graph : NavGraph) (start : Coord) :
    ∀ (ws : List Coord) (a : Coord), List.Chain (graphEdge graph) a ws →
      ∀ x ∈ ws, x ∈ navUniverse graph start := by
  intro ws
  induction ws with
  | nil => intro a _ x hx; cases hx
  | cons b ws' ih =>
    intro a hch x hx
    rw [List.chain_cons] at hch
    obtain ⟨⟨l, hl, hb⟩, hch'⟩ := hch
    rcases List.mem_cons.mp hx with rfl | hx'
    · exact nbr_mem_navUniverse graph start a x l hl hb
    · exact ih b hch' x hx'

/-- Elements of the relaxed heap are old elements or pushed neighbours. -/
theorem relaxList_heap_mem (goal pos : Coord) :
    ∀ (ns : List Coord)
      (st : List (Coord × Nat) × List StateP × List (Coord × Coord)) (x : StateP),
      x ∈ (relaxList goal pos ns st).2.1 → x ∈ st.2.1 ∨ x.position ∈ ns := by
  intro ns
  induction ns with
  | nil => intro st x hx; exact Or.inl hx
  | cons n ns' ih =>
    intro st x hx
    have hrel : relaxList goal pos (n :: ns') st =
        relaxList goal pos ns' (relaxStep goal pos st n) := rfl
    rw [hrel] at hx
    rcases ih _ x hx with hx' | hxn
    · rcases relaxStep_cases goal pos n st with ⟨_, heq⟩ | ⟨_, heq⟩
      · rw [heq] at hx'
        exact Or.inl hx'
      · rw [heq] at hx'
        rcases List.mem_cons.mp hx' with rfl | hx''
        · exact Or.inr (List.mem_cons_self n ns')
        · exact Or.inl hx''
    · exact Or.inr (List.mem_cons_of_mem _ hxn)

/-- If the goal is unreachable, the loop can only return `none`. -/
theorem astarLoop_none_of_unreach (graph : NavGraph) (start goal : Coord)
    (hnr : ¬ GraphReach graph start goal) :
    ∀ (fuel : Nat) (dist : List (Coord × Nat)) (heap : List StateP)
      (cf : List (Coord × Coord)),
      (∀ s ∈ heap, GraphReach graph start s.position) →
      astarLoop graph start goal fuel dist heap cf = none := by
  intro fuel
  induction fuel with
  | zero => intros; rfl
  | succ f ih =>
    intro dist heap cf hreach
    rw [astarLoop]
    cases hpop : popMax heap with
    | none => rfl
    | some pr =>
      obtain ⟨s, rest⟩ := pr
      have hperm := popMax_perm heap s rest hpop
      have hsmem : s ∈ heap := hperm.symm.subset (List.mem_cons_self s rest)
      dsimp only
      have hne : ¬ s.position = goal := fun he => hnr (he ▸ hreach s hsmem)
      rw [if_neg hne]
      cases hlk : lookupA s.position graph with
      | none =>
        apply ih
        intro x hx
        exact hreach x (hperm.symm.subset (List.mem_cons_of_mem s hx))
      | some nbrs =>
        dsimp only
        apply ih
        intro x hx
        rcases relaxList_heap_mem goal s.position nbrs (dist, rest, cf) x hx with hx' | hxn
        · exact hreach x (hperm.symm.subset (List.mem_cons_of_mem s hx'))
        · exact Relation.ReflTransGen.tail (hreach s hsmem) ⟨nbrs, hlk, hxn⟩

/-- Completeness of the loop: with the invariants, a stable frontier, a
duplicate-free chain to the goal inside the universe, and enough budget,
the loop returns a path. -/
theorem astarLoop_isSome (graph : NavGraph) (start goal : Coord)
    (hsize : 14 * (navUniverse graph start).length < cap)
    (ws : List Coord) (hch : List.Chain (graphEdge graph) start ws)
    (hlast : (start :: ws).getLast? = some goal)
    (hndws : (start :: ws).Nodup)
    (hwsu : ∀ x ∈ start :: ws, x ∈ navUniverse graph start) :
    ∀ (fuel : Nat) (dist : List (Coord × Nat)) (heap : List StateP)
      (cf : List (Coord × Coord)),
      AStarCore graph start goal dist heap cf →
      StabInv graph dist heap →
      loopMeasure (navUniverse graph start) dist heap < fuel →
      (astarLoop graph start goal fuel dist heap cf).isSome := by
  intro fuel
  induction fuel with
  | zero => intro dist heap cf _ _ hm; omega
  | succ f ih =>
    intro dist heap cf hcore hstab hm
    rw [astarLoop]
    cases hpop : popMax heap with
    | none =>
      exfalso
      have hheap : heap = [] := (popMax_eq_none heap).mp hpop
      subst hheap
      have hstab0 : ∀ m l, lookupA m graph = some l → ∀ n ∈ l,
          distOf dist n ≤ distOf dist m + stepCost m n := by
        intro m l hl n hn
        rcases hstab m l hl n hn with ⟨s, hs, _⟩ | h
        · cases hs
        · exact h
      have hd0 : distOf dist start = 0 := distOf_of_lookup dist start 0 hcore.start0
      have hbound := stab_chain_bound graph dist hstab0 ws start goal hch hlast
      have hlen := nodup_length_le (start :: ws) (navUniverse graph start) hndws hwsu
      rw [List.length_cons] at hlen
      have hgoalcap : distOf dist goal < cap := by
        rw [hd0] at hbound
        omega
      obtain ⟨dg, hdg⟩ := distOf_lt_cap_exists dist goal hgoalcap
      obtain ⟨s, hs, _⟩ := hcore.goal_heap dg hdg
      cases hs
    | some pr =>
      obtain ⟨s, rest⟩ := pr
      have hperm := popMax_perm heap s rest hpop
      have hsmem : s ∈ heap := hperm.symm.subset (List.mem_cons_self s rest)
      dsimp only
      by_cases hg : s.position = goal
      · rw [if_pos hg]
        obtain ⟨d, hd⟩ := hcore.heap_dist s hsmem
        rw [hg] at hd
        have hdv : distOf dist goal = d := distOf_of_lookup dist goal d hd
        exact reconstructPath_isSome start cf dist hcore.cf_chain hcore.dist_cf d goal []
          (distOf dist goal + 2) hd (by omega)
      · rw [if_neg hg]
        have hrestmem : ∀ x ∈ rest, x ∈ heap := fun x hx =>
          hperm.symm.subset (List.mem_cons_of_mem s hx)
        have hcore_rest : AStarCore graph start goal dist rest cf :=
          { heap_dist := fun x hx => hcore.heap_dist x (hrestmem x hx)
            val_lt := hcore.val_lt
            start0 := hcore.start0
            cf_chain := hcore.cf_chain
            dist_cf := hcore.dist_cf
            goal_heap := by
              intro d hd
              obtain ⟨t, ht, htp⟩ := hcore.goal_heap d hd
              rcases List.mem_cons.mp (hperm.subset ht) with rfl | ht'
              · exact absurd htp hg
              · exact ⟨t, ht', htp⟩
            reach_heap := fun x hx => hcore.reach_heap x (hrestmem x hx) }
        have hlenheap : heap.length = rest.length + 1 := by
          have := hperm.length_eq
          rw [List.length_cons] at this
          exact this
        cases hlk : lookupA s.position graph with
        | none =>
          apply ih dist rest cf hcore_rest
          · intro m l hl n hn
            rcases hstab m l hl n hn with ⟨x, hx, hxp⟩ | hle
            · rcases List.mem_cons.mp (hperm.subset hx) with rfl | hx'
              · rw [hxp] at hlk
                rw [hl] at hlk
                exact Option.noConfusion hlk
              · exact Or.inl ⟨x, hx', hxp⟩
            · exact Or.inr hle
          · rw [loopMeasure] at hm ⊢
            omega
        | some nbrs =>
          dsimp only
          have hreachs : GraphReach graph start s.position := hcore.reach_heap s hsmem
          have hedges : ∀ n ∈ nbrs, graphEdge graph s.position n :=
            fun n hn => ⟨nbrs, hlk, hn⟩
          have hnsu : ∀ n ∈ nbrs, n ∈ navUniverse graph start :=
            fun n hn => nbr_mem_navUniverse graph start s.position n nbrs hlk hn
          have hposd : ∃ d, lookupA s.position dist = some d := hcore.heap_dist s hsmem
          obtain ⟨hcoreR, hheapR, hmonoR, hposeqR, hnsR, himpR, hmeasR⟩ :=
            relaxList_spec graph start goal s.position (navUniverse graph start)
              (navUniverse_nodup graph start) hreachs nbrs dist rest cf hnsu hedges
              hposd hcore_rest
          apply ih _ _ _ hcoreR
          · intro m l hl n hn
            by_cases hms : m = s.position
            · subst hms
              rw [hlk] at hl
              cases hl
              exact Or.inr (hnsR n hn)
            · rcases hstab m l hl n hn with ⟨x, hx, hxp⟩ | hle
              · have hxs : x ≠ s := fun he => hms (by rw [← hxp, he])
                have hxrest : x ∈ rest := by
                  rcases List.mem_cons.mp (hperm.subset hx) with rfl | h'
                  · exact absurd rfl hxs
                  · exact h'
                exact Or.inl ⟨x, hheapR x hxrest, hxp⟩
              · by_cases hdm : distOf (relaxList goal s.position nbrs (dist, rest, cf)).1 m <
                    distOf dist m
                · obtain ⟨x, hx, hxp⟩ := himpR m hdm
                  exact Or.inl ⟨x, hx, hxp⟩
                · have heqm : distOf (relaxList goal s.position nbrs (dist, rest, cf)).1 m =
                      distOf dist m := le_antisymm (hmonoR m) (le_of_not_lt hdm)
                  refine Or.inr ?_
                  calc distOf (relaxList goal s.position nbrs (dist, rest, cf)).1 n
                      ≤ distOf dist n := hmonoR n
                    _ ≤ distOf dist m + stepCost m n := hle
                    _ = distOf (relaxList goal s.position nbrs (dist, rest, cf)).1 m +
                        stepCost m n := by rw [heqm]
          · have hrm : loopMeasure (navUniverse graph start) dist rest + 1 =
                loopMeasure (navUniverse graph start) dist heap := by
              rw [loopMeasure, loopMeasure]
              omega
            omega

/-- The invariants hold at the initial state of `find_path`. -/
theorem initAStarCore (graph : NavGraph) (start goal : Coord) :
    AStarCore graph start goal [(start, 0)] [⟨0, start⟩] [] := by
  refine { heap_dist := ?_, val_lt := ?_, start0 := ?_, cf_chain := ?_,
           dist_cf := ?_, goal_heap := ?_, reach_heap := ?_ }
  · intro s hs
    rcases List.mem_singleton.mp hs with rfl
    exact ⟨0, by simp [lookupA]⟩
  · intro k d h
    rw [lookupA] at h
    split at h
    · cases h
      rw [cap]
      omega
    · simp [lookupA] at h
  · simp [lookupA]
  · intro k v h
    simp [lookupA] at h
  · intro k d h hne
    rw [lookupA] at h
    split at h
    · rename_i he
      exact absurd he.symm hne
    · simp [lookupA] at h
  · intro d h
    rw [lookupA] at h
    split at h
    · rename_i he
      exact ⟨⟨0, start⟩, List.mem_singleton.mpr rfl, he⟩
    · simp [lookupA] at h
  · intro s hs
    rcases List.mem_singleton.mp hs with rfl
    exact Relation.ReflTransGen.refl

/-- Stability holds at the initial state of `find_path`. -/
theorem initStabInv (graph : NavGraph) (start : Coord) :
    StabInv graph [(start, 0)] [⟨0, start⟩] := by
  intro m l hl n hn
  by_cases hm : m = start
  · exact Or.inl ⟨⟨0, start⟩, List.mem_singleton.mpr rfl, hm.symm⟩
  · right
    have h1 : distOf [(start, 0)] m = cap := by
      have hnone : lookupA m [(start, 0)] = none := by
        rw [lookupA]
        rw [if_neg (fun he => hm he.symm)]
        rfl
      rw [distOf, hnone]
      rfl
    have h2 : distOf [(start, 0)] n ≤ cap :=
      distOf_le_cap [(start, 0)] n (initAStarCore graph start start).val_lt
    rw [h1]
    exact le_trans h2 (Nat.le_add_right cap _)

/-- The distance sum over a universe is bounded by `|u| * cap`. -/
theorem sumDist_le (u : List Coord) (dist : List (Coord × Nat))
    (hval : ∀ k d, lookupA k dist = some d → d < cap) :
    sumDist u dist ≤ u.length * cap := by
  induction u with
  | nil => simp [sumDist]
  | cons a u ih =>
    rw [sumDist, List.map_cons, List.sum_cons, List.length_cons, Nat.succ_mul]
    have h1 := distOf_le_cap dist a hval
    rw [sumDist] at ih
    omega

/-- With equal endpoints, the loop returns `some [start]` on its very first
iteration, node or not. -/
theorem astarLoop_self (graph : NavGraph) (start : Coord) (fuel : Nat) :
    astarLoop graph start start (fuel + 1) [(start, 0)] [⟨0, start⟩] [] = some [start] := by
  rw [astarLoop]
  simp [popMax, distOf, lookupA, reconstructPath]

/-- Claim C7 (amended): for a well-formed nav graph whose size satisfies
`14 * |universe| < u32::MAX`, `find_path` (i) returns `some [start]`
whenever `start = goal`, even when that tile is not a graph node; (ii)
returns `none` whenever the goal is unreachable along graph edges — in
particular (iii) whenever `start ≠ goal` and either endpoint is missing
from the graph; and (iv) returns a path starting at `start` and ending at
`goal` whenever the goal is reachable. -/
theorem find_path_domain (graph : NavGraph) (start goal : Coord)
    (hwf : wellFormedGraph graph = true)
    (hsize : 14 * (navUniverse graph start).length < cap) :
    (start = goal → find_path start goal graph = some [start]) ∧
    (¬ GraphReach graph start goal → find_path start goal graph = none) ∧
    (start ≠ goal → (navHasNode graph start = false ∨ navHasNode graph goal = false) →
      find_path start goal graph = none) ∧
    (GraphReach graph start goal →
      ∃ p, find_path start goal graph = some p ∧
        p.head? = some start ∧ p.getLast? = some goal) := by
  have hinit : ∀ s ∈ ([⟨0, start⟩] : List StateP), GraphReach graph start s.position := by
    intro s hs
    rcases List.mem_singleton.mp hs with rfl
    exact Relation.ReflTransGen.refl
  refine ⟨?_, ?_, ?_, ?_⟩
  · intro he
    subst he
    rw [find_path, findPathFuel]
    exact astarLoop_self graph start ((navUniverse graph start).length * cap + 1)
  · intro hnr
    rw [find_path]
    exact astarLoop_none_of_unreach graph start goal hnr _ _ _ _ hinit
  · intro hne hmiss
    rw [find_path]
    apply astarLoop_none_of_unreach graph start goal ?_ _ _ _ _ hinit
    intro hr
    rcases hmiss with hs | hg
    · rcases Relation.ReflTransGen.cases_head hr with he | ⟨b, hb, _⟩
      · exact hne he
      · obtain ⟨l, hl, _⟩ := hb
        rw [navHasNode, hl] at hs
        simp at hs
    · rcases Relation.ReflTransGen.cases_tail hr with he | ⟨c, _, hc⟩
      · exact hne he.symm
      · have hsome := wellFormed_edge graph hwf c goal hc
        rw [navHasNode] at hg
        rw [hg] at hsome
        exact Bool.noConfusion hsome
  · intro hr
    obtain ⟨l, hch, hlastl⟩ := List.exists_chain_of_relationReflTransGen hr
    have hlastq : (start :: l).getLast? = some goal := by
      rw [List.getLast?_eq_getLast _ (List.cons_ne_nil _ _), hlastl]
    obtain ⟨l', hch', _, hsub', hlast', hnd'⟩ :=
      chain_dedup (graphEdge graph) l.length start l (le_refl _) hch
    have hlastq' : (start :: l').getLast? = some goal := by rw [hlast']; exact hlastq
    have hwsu : ∀ x ∈ start :: l', x ∈ navUniverse graph start := by
      intro x hx
      rcases List.mem_cons.mp hx with he | hx'
      · rw [he]
        exact start_mem_navUniverse graph start
      · exact chain_mem_navUniverse graph start l start hch x (hsub' x hx')
    have hmeas : loopMeasure (navUniverse graph start) [(start, 0)] [⟨0, start⟩] <
        findPathFuel graph start := by
      rw [loopMeasure, findPathFuel, List.length_singleton]
      have hsum := sumDist_le (navUniverse graph start) [(start, 0)]
        (initAStarCore graph start goal).val_lt
      omega
    have hres := astarLoop_isSome graph start goal hsize l' hch' hlastq' hnd' hwsu
      (findPathFuel graph start) [(start, 0)] [⟨0, start⟩] []
      (initAStarCore graph start goal) (initStabInv graph start) hmeas
    rw [find_path]
    cases hval : astarLoop graph start goal (findPathFuel graph start)
        [(start, 0)] [⟨0, start⟩] [] with
    | none =>
      rw [hval] at hres
      exact Bool.noConfusion hres
    | some p =>
      obtain ⟨h1, h2⟩ := astarLoop_shape graph start goal _ _ _ _ p hval
      exact ⟨p, rfl, h1, h2⟩

/-- Counterexample to the original C7 sentence: with equal endpoints,
`find_path` succeeds even on a tile that is not a node of the graph. -/
theorem find_path_offgraph_cex :
    navHasNode c5Nav (9, 9) = false ∧
    find_path (9, 9) (9, 9) c5Nav = some [(9, 9)] :=
  ⟨by decide, by decide⟩

/-- Witness instantiating `find_path_domain` on the blocked 5×5 graph. -/
theorem find_path_domain_witness :
    wellFormedGraph c5Nav = true ∧
    14 * (navUniverse c5Nav (0, 0)).length < cap ∧
    find_path (0, 0) (0, 0) c5Nav = some [(0, 0)] :=
  ⟨by decide, by decide,
    (find_path_domain c5Nav (0, 0) (0, 0) (by decide) (by decide)).1 rfl⟩
